import Mathlib

/-!
The command `nuv login`: a shallow embedding of `auth/login.go`.

The development embeds the three functions of `auth/login.go`
(`LoginCmd`, `doLogin`, `storeCredentials`) as state-passing Lean functions
over an explicit `World` (standard output, issued HTTP requests, keyring
contents and the log of attempted keyring writes) and an `Env` of external
behaviour (parsed command line, password prompt, HTTP endpoint, keyring
faults, map iteration order).

Library calls are modelled at their documented behaviour:

* `keyring.Set` / `keyring.Get` of `github.com/zalando/go-keyring`
  (`keyringSet`, `keyringGet`), with faults supplied by the environment;
* `json.NewDecoder(r).Decode(&m)` for `m : map[string]string`
  (`jsonDecode`, built from `parseValue` and `unmarshalMap`);
* `json.Marshal` of the request map, kept as the members of the object it
  encodes (`Request.body`);
* `fmt.Errorf` with `%d` / `%s`, `fmt.Print`, `fmt.Println`.

The outcome of `flag.Parse()` (help flag and positional arguments), the value
returned by `AskPassword()` and the answer of the HTTP endpoint are inputs
(`Env`). A response body is a stream: the text it delivers and the way it
ends, with end of file or with a failing read. One call of `LoginCmd` stands for one invocation of the command; the
keyring is the only state that is carried from one invocation to the next.

Go strings are modelled by Lean `String`s (well-formed Unicode text), Go
`error` values by their message.
-/

namespace Nuv

/-! ## Data model -/

/-- Go `error` values, identified with their message. -/
abbrev Error := String

deriving instance DecidableEq for Except

/-- A Go `map[string]string`, as its key/value pairs (keys pairwise distinct). -/
abbrev Creds := List (String × String)

/-- `type LoginResult struct { Login, Auth, ApiHost string }`. -/
structure LoginResult where
  Login : String
  Auth : String
  ApiHost : String
  deriving DecidableEq, Repr

/-- `const usage`. -/
def usage : String :=
  "Usage:\nnuv login <apihost> [<user>]\n\nLogin to a Nuvolaris instance. If no user is specified, the default user \"nuvolaris\" is used.\n\nOptions:\n  -h, --help   Show usage"

/-- `const whiskLoginPath`. -/
def whiskLoginPath : String := "/api/v1/web/whisk-system/nuv/login"

/-- `const defaultUser`. -/
def defaultUser : String := "nuvolaris"

/-- `const nuvSecretServiceName`. -/
def nuvSecretServiceName : String := "nuvolaris"

/-- `keyring.ErrNotFound` of go-keyring. -/
def ErrNotFound : Error := "secret not found in keyring"

/-- The message of the decode failure in `doLogin`. -/
def errDecode : Error := "failed to decode response from login request"

/-! ## JSON decoding into `map[string]string` (model of `encoding/json`) -/

/-- A parsed JSON value. Numbers keep their source text. -/
inductive JSON where
  | null : JSON
  | bool (b : Bool) : JSON
  | num (raw : List Char) : JSON
  | str (s : String) : JSON
  | arr (xs : List JSON) : JSON
  | obj (ms : List (String × JSON)) : JSON

/-- The four JSON whitespace characters (`isSpace` of the Go scanner). -/
def isSpace (c : Char) : Bool :=
  c = ' ' || c = '\t' || c = '\r' || c = '\n'

/-- Drop leading JSON whitespace. -/
def skipSpace : List Char → List Char
  | [] => []
  | c :: cs => if isSpace c then skipSpace cs else c :: cs

/-- Value of a hexadecimal digit. -/
def hexVal (c : Char) : Option Nat :=
  if '0' ≤ c ∧ c ≤ '9' then some (c.toNat - 48)
  else if 'a' ≤ c ∧ c ≤ 'f' then some (c.toNat - 87)
  else if 'A' ≤ c ∧ c ≤ 'F' then some (c.toNat - 55)
  else none

/-- Four hexadecimal digits as a number (`getu4` without the `\u` prefix). -/
def hex4 (a b c d : Char) : Option Nat :=
  match hexVal a, hexVal b, hexVal c, hexVal d with
  | some x, some y, some z, some w => some (((x * 16 + y) * 16 + z) * 16 + w)
  | _, _, _, _ => none

/-- `unicode.ReplacementChar`. -/
def replacementChar : Char := Char.ofNat 0xFFFD

/-- The character of a one-letter escape `\b \f \n \r \t \\ \/ \"`. -/
def simpleEscape (e : Char) : Option Char :=
  if e = 'b' then some (Char.ofNat 8)
  else if e = 'f' then some (Char.ofNat 12)
  else if e = 'n' then some '\n'
  else if e = 'r' then some '\r'
  else if e = 't' then some '\t'
  else if e = '\\' then some '\\'
  else if e = '/' then some '/'
  else if e = '"' then some '"'
  else none

/-- The low half of a UTF-16 surrogate pair whose high half is `rr`: a second
`\uXXXX` escape at the head of the input with a value in `DC00`..`DFFF`
(`utf16.DecodeRune`); returns the combined character and the input after it. -/
def lowSurrogate (rr : Nat) : List Char → Option (Char × List Char)
  | bs :: u :: a2 :: b2 :: c2 :: d2 :: rest2 =>
    match hex4 a2 b2 c2 d2 with
    | some rr1 =>
      if bs = '\\' ∧ u = 'u' ∧ rr < 0xDC00 ∧ 0xDC00 ≤ rr1 ∧ rr1 < 0xE000 then
        some (Char.ofNat ((rr - 0xD800) * 1024 + (rr1 - 0xDC00) + 0x10000), rest2)
      else none
    | none => none
  | _ => none

/-- The four hexadecimal digits after `\u`, decoded: a surrogate that is not
the high half of a valid pair becomes `U+FFFD` and only its own escape is
consumed. -/
def parseUnicode : List Char → Option (Char × List Char)
  | a :: b :: c :: d :: rest1 =>
    match hex4 a b c d with
    | none => none
    | some rr =>
      if 0xD800 ≤ rr ∧ rr < 0xE000 then
        match lowSurrogate rr rest1 with
        | some r => some r
        | none => some (replacementChar, rest1)
      else some (Char.ofNat rr, rest1)
  | _ => none

/-- An escape sequence after its backslash; returns the decoded character and
the input after the escape. -/
def parseEscape : List Char → Option (Char × List Char)
  | [] => none
  | e :: rest =>
    if e = 'u' then parseUnicode rest
    else
      match simpleEscape e with
      | some ch => some (ch, rest)
      | none => none

/-- The characters of a JSON string literal after its opening quote, decoded
(`stateInString` of the scanner together with `unquote`): returns the decoded
text and the input after the closing quote; `none` on a syntax error or an
unterminated literal. The accumulator holds the decoded text so far, last
character first. -/
def parseString : Nat → List Char → List Char → Option (String × List Char)
  | 0, _, _ => none
  | _ + 1, [], _ => none
  | fuel + 1, c :: cs, acc =>
    if c = '"' then some (String.mk acc.reverse, cs)
    else if c = '\\' then
      match parseEscape cs with
      | none => none
      | some (ch, rest) => parseString fuel rest (ch :: acc)
    else if c.toNat < 0x20 then none
    else parseString fuel cs (c :: acc)

/-- Consume a maximal run of decimal digits. -/
def takeDigits : List Char → List Char × List Char
  | [] => ([], [])
  | c :: cs =>
    if c.isDigit then
      let r := takeDigits cs
      (c :: r.1, r.2)
    else ([], c :: cs)

/-- The optional fraction of a number, after its integer part: a point must
be followed by at least one digit. -/
def parseFrac : List Char → Option (List Char × List Char)
  | [] => some ([], [])
  | c :: rest =>
    if c = '.' then
      match takeDigits rest with
      | ([], _) => none
      | (d :: ds, rest1) => some (c :: d :: ds, rest1)
    else some ([], c :: rest)

/-- The optional exponent of a number: `e` or `E`, an optional sign, and at
least one digit. -/
def parseExp : List Char → Option (List Char × List Char)
  | [] => some ([], [])
  | e :: rest =>
    if e = 'e' ∨ e = 'E' then
      match rest with
      | [] => none
      | s :: rest1 =>
        if s = '+' ∨ s = '-' then
          match takeDigits rest1 with
          | ([], _) => none
          | (d :: ds, rest2) => some (e :: s :: d :: ds, rest2)
        else
          match takeDigits (s :: rest1) with
          | ([], _) => none
          | (d :: ds, rest2) => some (e :: d :: ds, rest2)
    else some ([], e :: rest)

/-- The digits of a number after an optional minus sign, with the fraction
and the exponent: a leading `0` stands alone. -/
def parseUnsigned : List Char → Option (List Char × List Char)
  | [] => none
  | d :: rest =>
    if d = '0' then
      match parseFrac rest with
      | none => none
      | some (fr, rest1) =>
        match parseExp rest1 with
        | none => none
        | some (ex, rest2) => some (d :: fr ++ ex, rest2)
    else if '1' ≤ d ∧ d ≤ '9' then
      match parseFrac (takeDigits rest).2 with
      | none => none
      | some (fr, rest1) =>
        match parseExp rest1 with
        | none => none
        | some (ex, rest2) => some (d :: (takeDigits rest).1 ++ fr ++ ex, rest2)
    else none

/-- A JSON number at the head of the input. -/
def parseNumber : List Char → Option (List Char × List Char)
  | [] => none
  | c :: rest =>
    if c = '-' then
      match parseUnsigned rest with
      | none => none
      | some (ds, rest1) => some (c :: ds, rest1)
    else parseUnsigned (c :: rest)

/-- Remove the given characters from the head of the input, if they are
there. -/
def dropPrefix : List Char → List Char → Option (List Char)
  | [], cs => some cs
  | _ :: _, [] => none
  | p :: ps, c :: cs => if p = c then dropPrefix ps cs else none

/-- A JSON value that is not an object or an array, whose first character is
`c`: a string, `true`, `false`, `null` or a number. -/
def parseScalar (c : Char) (rest : List Char) : Option (JSON × List Char) :=
  if c = '"' then
    match parseString (rest.length + 1) rest [] with
    | none => none
    | some (s, rest1) => some (JSON.str s, rest1)
  else if c = 't' then
    match dropPrefix ['r', 'u', 'e'] rest with
    | none => none
    | some rest1 => some (JSON.bool true, rest1)
  else if c = 'f' then
    match dropPrefix ['a', 'l', 's', 'e'] rest with
    | none => none
    | some rest1 => some (JSON.bool false, rest1)
  else if c = 'n' then
    match dropPrefix ['u', 'l', 'l'] rest with
    | none => none
    | some rest1 => some (JSON.null, rest1)
  else if c = '-' ∨ c.isDigit then
    match parseNumber (c :: rest) with
    | none => none
    | some (raw, rest1) => some (JSON.num raw, rest1)
  else none

/-- `maxNestingDepth` of the Go scanner. -/
def maxNestingDepth : Nat := 10000

mutual
/-- One JSON value at the head of the input, leading whitespace skipped
(`stateBeginValue`); returns the value and the unconsumed input. -/
def parseValue : Nat → Nat → List Char → Option (JSON × List Char)
  | 0, _, _ => none
  | fuel + 1, depth, cs =>
    match skipSpace cs with
    | [] => none
    | c :: rest =>
      if c = '{' then
        if depth + 1 > maxNestingDepth then none
        else
          match skipSpace rest with
          | [] => none
          | c1 :: rest1 =>
            if c1 = '}' then some (JSON.obj [], rest1)
            else if c1 = '"' then
              match parseMembers fuel (depth + 1) rest1 with
              | none => none
              | some (ms, rest2) => some (JSON.obj ms, rest2)
            else none
      else if c = '[' then
        if depth + 1 > maxNestingDepth then none
        else
          match skipSpace rest with
          | [] => none
          | c1 :: rest1 =>
            if c1 = ']' then some (JSON.arr [], rest1)
            else
              match parseElements fuel (depth + 1) (c1 :: rest1) with
              | none => none
              | some (xs, rest2) => some (JSON.arr xs, rest2)
      else parseScalar c rest
/-- The members of an object, positioned just after the opening quote of a
key; returns them and the input after the closing brace. -/
def parseMembers : Nat → Nat → List Char → Option (List (String × JSON) × List Char)
  | 0, _, _ => none
  | fuel + 1, depth, cs =>
    match parseString (cs.length + 1) cs [] with
    | none => none
    | some (key, rest) =>
      match skipSpace rest with
      | [] => none
      | c :: rest1 =>
        if c = ':' then
          match parseValue fuel depth rest1 with
          | none => none
          | some (v, rest2) =>
            match skipSpace rest2 with
            | [] => none
            | c1 :: rest3 =>
              if c1 = '}' then some ([(key, v)], rest3)
              else if c1 = ',' then
                match skipSpace rest3 with
                | [] => none
                | c2 :: rest4 =>
                  if c2 = '"' then
                    match parseMembers fuel depth rest4 with
                    | none => none
                    | some (ms, rest5) => some ((key, v) :: ms, rest5)
                  else none
              else none
        else none
/-- The elements of a non-empty array, positioned at the start of an element;
returns them and the input after the closing bracket. -/
def parseElements : Nat → Nat → List Char → Option (List JSON × List Char)
  | 0, _, _ => none
  | fuel + 1, depth, cs =>
    match parseValue fuel depth cs with
    | none => none
    | some (v, rest) =>
      match skipSpace rest with
      | [] => none
      | c :: rest1 =>
        if c = ']' then some ([v], rest1)
        else if c = ',' then
          match parseElements fuel depth rest1 with
          | none => none
          | some (xs, rest2) => some (v :: xs, rest2)
        else none
end

/-- Map assignment `m[k] = v`: replaces the value of an existing key in place,
appends a new key otherwise. -/
def mapSet : Creds → String → String → Creds
  | [], k, v => [(k, v)]
  | (k1, v1) :: m, k, v => if k1 = k then (k, v) :: m else (k1, v1) :: mapSet m k v

/-- Store the members of a JSON object into a `map[string]string`
(`decodeState.object` for that type): a string member is stored, a `null`
member stores the zero value `""`, a member of any other kind is an
`UnmarshalTypeError`, which makes the whole decode fail. -/
def unmarshalMembers : List (String × JSON) → Creds → Option Creds
  | [], m => some m
  | (k, JSON.str s) :: ms, m => unmarshalMembers ms (mapSet m k s)
  | (k, JSON.null) :: ms, m => unmarshalMembers ms (mapSet m k "")
  | _ :: _, _ => none

/-- Unmarshal a JSON value into a `map[string]string`: `null` leaves the map
nil (no pairs, no error), an object is stored member by member, every other
kind of value is an `UnmarshalTypeError`. -/
def unmarshalMap : JSON → Option Creds
  | JSON.null => some []
  | JSON.obj ms => unmarshalMembers ms []
  | _ => none

/-- Whether the scanner sees the end of the value `v` before the text that
was read runs out, `rest` being the text after the value: an array or an
object ends at its closing bracket; a string, a number or a literal is only
known to have ended when one more character has been read. -/
def endSeen : JSON → List Char → Bool
  | JSON.arr _, _ => true
  | JSON.obj _, _ => true
  | _, rest => !rest.isEmpty

/-- `json.NewDecoder(r).Decode(&creds)` with `creds : map[string]string`, on a
stream `r` that delivers the text `body` and then ends, with end of file
(`readErr = none`) or with a failing read (`readErr = some err`). The decoder
reads the first JSON value of the text (whatever follows it is not looked at)
and unmarshals it; `none` stands for a non-nil error. When the stream ends
with a failing read, a value whose end the scanner has seen is decoded all
the same, and the read error is the result otherwise. The fuel given to the
parser is never exhausted (`jsonDecode_fuel`). -/
def jsonDecode (body : String) (readErr : Option Error) : Option Creds :=
  match parseValue (2 * body.length + 2) 0 body.toList with
  | none => none
  | some (v, rest) =>
    match readErr with
    | none => unmarshalMap v
    | some _ => if endSeen v rest then unmarshalMap v else none

/-! ## External world -/

/-- An HTTP request as issued by `http.Post`. The body is the JSON object
that `json.Marshal` writes for the request map, given by its members in the
order of the encoding (sorted by key). -/
structure Request where
  method : String
  url : String
  contentType : String
  body : List (String × String)
  deriving DecidableEq, Repr

/-- An HTTP response: its status code and its body, a stream that delivers
the text `Body` and then ends, with end of file (`BodyErr = none`) or with a
failing read (`BodyErr = some err`). -/
structure Response where
  StatusCode : Nat
  Body : String
  BodyErr : Option Error
  deriving DecidableEq, Repr

/-- `io.ReadAll(resp.Body)`: the whole text when the stream ends with end of
file, `none` (a non-nil error) when a read fails. -/
def readAll (resp : Response) : Option String :=
  match resp.BodyErr with
  | none => some resp.Body
  | some _ => none

/-- Contents of the keyring: `(service, user) ↦ secret`. -/
abbrev Entries := String → String → Option String

/-- Behaviour of everything outside the program during one invocation. -/
structure Env where
  /-- Value of the `-h` / `--help` flag after `flag.Parse()`. -/
  helpFlag : Bool
  /-- Positional arguments, `flag.Args()`. -/
  args : List String
  /-- What `AskPassword()` returns. -/
  askPassword : Except Error String
  /-- What `http.Post` returns for a request. -/
  httpPost : Request → Except Error Response
  /-- Fault of `keyring.Set service user password` on the given contents. -/
  setFault : Entries → String → String → String → Option Error
  /-- Fault of `keyring.Get service user` on the given contents. -/
  getFault : Entries → String → String → Option Error
  /-- Order in which `range` visits the pairs of a map. -/
  rangeOrder : Creds → Creds

/-- Observable state: text written to standard output, number of calls of
`AskPassword`, HTTP requests issued (oldest first), keyring contents,
attempted keyring writes (oldest first). -/
structure World where
  stdout : String
  pwdReads : Nat
  requests : List Request
  entries : Entries
  setLog : List (String × String × String)

/-- `fmt.Print(s)`. -/
def print (s : String) (w : World) : World :=
  { w with stdout := w.stdout ++ s }

/-- `fmt.Println(s)`. -/
def println (s : String) (w : World) : World :=
  { w with stdout := w.stdout ++ s ++ "\n" }

/-- Keyring contents after a successful write. -/
def Entries.set (e : Entries) (service user password : String) : Entries :=
  fun s u => if s = service ∧ u = user then some password else e s u

/-- `keyring.Set(service, user, password)`: a failing write leaves the
contents as they were. -/
def keyringSet (env : Env) (service user password : String) (w : World) :
    Option Error × World :=
  let w1 := { w with setLog := w.setLog ++ [(service, user, password)] }
  match env.setFault w.entries service user password with
  | some e => (some e, w1)
  | none => (none, { w1 with entries := w.entries.set service user password })

/-- `keyring.Get(service, user)`: a missing entry is `ErrNotFound`. -/
def keyringGet (env : Env) (service user : String) (w : World) : Except Error String :=
  match env.getFault w.entries service user with
  | some e => Except.error e
  | none =>
    match w.entries service user with
    | some v => Except.ok v
    | none => Except.error ErrNotFound

/-! ## The program -/

/-- The loop of `storeCredentials` over the pairs in visiting order. -/
def storeLoop (env : Env) : Creds → World → Option Error × World
  | [], w => (none, w)
  | (k, v) :: rest, w =>
    match keyringSet env nuvSecretServiceName k v w with
    | (some err, w1) => (some err, w1)
    | (none, w1) => storeLoop env rest w1

/-- `func storeCredentials(creds map[string]string) error`. -/
def storeCredentials (env : Env) (creds : Creds) (w : World) : Option Error × World :=
  storeLoop env (env.rangeOrder creds) w

/-- `func doLogin(url, user, password string) (map[string]string, error)`. -/
def doLogin (env : Env) (url user password : String) (w : World) :
    Except Error Creds × World :=
  let data : List (String × String) := [("login", user), ("password", password)]
  let req : Request := ⟨"POST", url, "application/json", data⟩
  let w1 := { w with requests := w.requests ++ [req] }
  match env.httpPost req with
  | Except.error err => (Except.error err, w1)
  | Except.ok resp =>
    if resp.StatusCode ≠ 200 then
      match readAll resp with
      | none =>
        (Except.error ("login failed with status code " ++ toString resp.StatusCode), w1)
      | some body =>
        (Except.error ("login failed (" ++ toString resp.StatusCode ++ "): " ++ body), w1)
    else
      match jsonDecode resp.Body resp.BodyErr with
      | none => (Except.error errDecode, w1)
      | some creds => (Except.ok creds, w1)

/-- `func LoginCmd() (*LoginResult, error)`, one invocation of the command. -/
def LoginCmd (env : Env) (w : World) : (Option LoginResult × Option Error) × World :=
  if env.helpFlag then
    ((none, none), println usage w)
  else
    let args := env.args
    if args.length = 0 then
      ((none, some "missing apihost"), println usage w)
    else
      let w1 := print "Enter Password: " w
      let w2 := { w1 with pwdReads := w1.pwdReads + 1 }
      match env.askPassword with
      | Except.error err => ((none, some err), w2)
      | Except.ok pwd =>
        let w3 := println "" w2
        let apihost := args.getD 0 ""
        let url := apihost ++ whiskLoginPath
        let user := if args.length > 1 then args.getD 1 "" else defaultUser
        match doLogin env url user pwd w3 with
        | (Except.error err, w4) => ((none, some err), w4)
        | (Except.ok creds, w4) =>
          match storeCredentials env creds w4 with
          | (some err, w5) => ((none, some err), w5)
          | (none, w5) =>
            match keyringGet env nuvSecretServiceName "AUTH" w5 with
            | Except.error err => ((none, some err), w5)
            | Except.ok auth => ((some ⟨user, auth, apihost⟩, none), w5)

/-- Modelled from the spec: `AskPassword` of this package, which is not among
the source files; section 4.1 of the specification: the reader yields a secret
and possibly a fault, a zero-length secret is the validation error
`password is empty` whether or not the reader reported a fault, a fault of
the reader is passed on otherwise. -/
def AskPassword (secret : String) (fault : Option Error) : Except Error String :=
  if secret.length = 0 then Except.error "password is empty"
  else
    match fault with
    | some err => Except.error err
    | none => Except.ok secret

/-! ## Specification-side notions -/

/-- Go map lookup `m[k]` with its presence flag. -/
def mapGet : Creds → String → Option String
  | [], _ => none
  | (k1, v1) :: m, k => if k1 = k then some v1 else mapGet m k

/-- Keyring contents `e` overridden with the pairs of `creds` under the
service `nuvolaris`. -/
def override (e : Entries) (creds : Creds) : Entries :=
  fun s u =>
    if s = nuvSecretServiceName then
      match mapGet creds u with
      | some v => some v
      | none => e s u
    else e s u

/-- The log entries of writing `pairs` under the service `nuvolaris`. -/
def writesOf (pairs : Creds) : List (String × String × String) :=
  pairs.map fun p => (nuvSecretServiceName, p.1, p.2)

/-- A JSON value that unmarshals into a `map[string]string` without error:
`null`, or an object all of whose member values are strings or `null`. -/
def mapShaped : JSON → Bool
  | JSON.null => true
  | JSON.obj ms =>
    ms.all fun m =>
      match m.2 with
      | JSON.str _ => true
      | JSON.null => true
      | _ => false
  | _ => false

/-- Follows the specification's words: "a flat object with string values
only" (section 4.2). -/
def isFlatStringObject : JSON → Bool
  | JSON.obj ms =>
    ms.all fun m =>
      match m.2 with
      | JSON.str _ => true
      | _ => false
  | _ => false

/-- Follows the specification's words: "the body is valid JSON", that is the
whole body is one JSON value surrounded by optional whitespace; returns that
value. -/
def validJSON (body : String) : Option JSON :=
  match parseValue (2 * body.length + 2) 0 body.toList with
  | none => none
  | some (v, rest) => if skipSpace rest = [] then some v else none

/-! ## Auxiliary definitions -/

/-- The world once the password prompt has been printed, the password read
and the line ended (lines 72 to 77 of `login.go`). -/
def prompted (w : World) : World :=
  println "" { print "Enter Password: " w with pwdReads := w.pwdReads + 1 }

/-- The continuation of `LoginCmd` after `doLogin` returned. -/
def afterLogin (env : Env) (user apihost : String) :
    Except Error Creds × World → (Option LoginResult × Option Error) × World
  | (Except.error err, w4) => ((none, some err), w4)
  | (Except.ok creds, w4) =>
    match storeCredentials env creds w4 with
    | (some err, w5) => ((none, some err), w5)
    | (none, w5) =>
      match keyringGet env nuvSecretServiceName "AUTH" w5 with
      | Except.error err => ((none, some err), w5)
      | Except.ok auth => ((some ⟨user, auth, apihost⟩, none), w5)

/-- The environment `env` with maps visited in the order `order`. -/
def withOrder (env : Env) (order : Creds → Creds) : Env :=
  { env with rangeOrder := order }

/-! ## Concrete environments -/

/-- The response body `{"fakeCred": "test"}` of the tests. -/
def fakeCredBody : String := "\x7b\"fakeCred\": \"test\"\x7d"

/-- The response body `{"AUTH": "tok"}`. -/
def authBody : String := "\x7b\"AUTH\": \"tok\"\x7d"

/-- The response body `{"AUTH": null}`. -/
def nullAuthBody : String := "\x7b\"AUTH\": null\x7d"

/-- The response body `{"a":"b"} x`: an object followed by other text. -/
def trailingBody : String := "\x7b\"a\":\"b\"\x7d x"

/-- An empty keyring, nothing printed, no request issued. -/
def emptyWorld : World := ⟨"", 0, [], fun _ _ => none, []⟩

/-- A keyring holding only `AUTH ↦ "old"` under `nuvolaris`. -/
def authWorld : World :=
  ⟨"", 0, [], fun s u => if s = "nuvolaris" ∧ u = "AUTH" then some "old" else none, []⟩

/-- An endpoint answering every request with the given status, body text and
end of the body stream, a fault-free keyring, and maps visited in the order
given by `order`. -/
def mkEnv (args : List String) (pwd : Except Error String) (status : Nat)
    (body : String) (readErr : Option Error) (order : Creds → Creds) : Env :=
  ⟨false, args, pwd, fun _ => Except.ok ⟨status, body, readErr⟩,
    fun _ _ _ _ => none, fun _ _ _ => none, order⟩

/-- The map of `Test_storeCredentials`. -/
def fakeCreds : Creds :=
  [("AUTH", "fakeValue"), ("REDIS_URL", "fakeValue"), ("MONGODB", "fakeValue")]

/-- A fault-free environment visiting maps in listed order. -/
def plainEnv : Env := mkEnv [] (Except.ok "") 200 "" none id

/-- A fault-free environment visiting maps in reverse listed order. -/
def reverseEnv : Env := mkEnv [] (Except.ok "") 200 "" none List.reverse

/-- An environment whose keyring refuses to write the key `REDIS_URL`. -/
def faultyEnv : Env :=
  ⟨false, [], Except.ok "", fun _ => Except.ok ⟨200, "", none⟩,
    fun _ _ u _ => if u = "REDIS_URL" then some "keyring locked" else none,
    fun _ _ _ => none, id⟩

/-- An endpoint answering 200 with `{"AUTH": "tok"}`, a fault-free keyring,
host `h` and user `u`. -/
def authEnv : Env :=
  mkEnv ["h", "u"] (Except.ok "pw") 200 authBody none id

/-- As `authEnv`, but reading the keyring entry `AUTH` faults. -/
def lockedEnv : Env :=
  ⟨false, ["h", "u"], Except.ok "pw",
    fun _ => Except.ok ⟨200, authBody, none⟩,
    fun _ _ _ _ => none,
    fun _ _ u => if u = "AUTH" then some "keyring locked" else none, id⟩

/-- An endpoint answering 200 with `{"AUTH": null}`, a fault-free keyring,
host `h` and user `u`. -/
def nullEnv : Env :=
  mkEnv ["h", "u"] (Except.ok "pw") 200 nullAuthBody none id

/-- The last test of `TestLoginCmd`: the endpoint answers 200 with the text
`invalid json`. -/
def invalidEnv : Env :=
  mkEnv ["h", "a user"] (Except.ok "a password") 200 "invalid json" none id

/-- The first success test of `TestLoginCmd`: only the host argument, password
`a password`, the endpoint answers 200 with `{"fakeCred": "test"}`. -/
def testEnv : Env :=
  mkEnv ["http://127.0.0.1:8080"] (Except.ok "a password") 200
    fakeCredBody none id


/-! ## Lemmas on the JSON decoder: consumed input and fuel -/

theorem skipSpace_length_le (cs : List Char) : (skipSpace cs).length ≤ cs.length := by
  induction cs with
  | nil => simp [skipSpace]
  | cons c cs ih =>
    simp only [skipSpace]
    split
    · exact Nat.le_succ_of_le ih
    · exact Nat.le_refl _

theorem lowSurrogate_length_le (rr : Nat) (cs : List Char) (ch : Char) (rest : List Char)
    (h : lowSurrogate rr cs = some (ch, rest)) : rest.length ≤ cs.length := by
  unfold lowSurrogate at h
  split at h
  · split at h
    · split at h
      · simp only [Option.some.injEq, Prod.mk.injEq] at h
        rw [← h.2]
        simp only [List.length_cons]
        omega
      · cases h
    · cases h
  · cases h

theorem parseUnicode_length_le (cs : List Char) (ch : Char) (rest : List Char)
    (h : parseUnicode cs = some (ch, rest)) : rest.length ≤ cs.length := by
  unfold parseUnicode at h
  split at h
  · split at h
    · cases h
    · split at h
      · split at h
        · rename_i r hr
          simp only [Option.some.injEq] at h
          subst h
          have := lowSurrogate_length_le _ _ _ _ hr
          simp only [List.length_cons]
          omega
        · simp only [Option.some.injEq, Prod.mk.injEq] at h
          rw [← h.2]
          simp only [List.length_cons]
          omega
      · simp only [Option.some.injEq, Prod.mk.injEq] at h
        rw [← h.2]
        simp only [List.length_cons]
        omega
  · cases h

theorem parseEscape_length_lt (cs : List Char) (ch : Char) (rest : List Char)
    (h : parseEscape cs = some (ch, rest)) : rest.length < cs.length := by
  unfold parseEscape at h
  split at h
  · cases h
  · split at h
    · have := parseUnicode_length_le _ _ _ h
      simp only [List.length_cons]
      omega
    · split at h
      · simp only [Option.some.injEq, Prod.mk.injEq] at h
        rw [← h.2]
        simp only [List.length_cons]
        omega
      · cases h

theorem parseString_length_lt (n : Nat) : ∀ (cs acc : List Char) (s : String) (rest : List Char),
    parseString n cs acc = some (s, rest) → rest.length < cs.length := by
  induction n with
  | zero => intro cs acc s rest h; simp [parseString] at h
  | succ n ih =>
    intro cs acc s rest h
    cases cs with
    | nil => simp [parseString] at h
    | cons c cs =>
      simp only [parseString] at h
      split at h
      · simp only [Option.some.injEq, Prod.mk.injEq] at h
        rw [← h.2]
        simp
      · split at h
        · split at h
          · cases h
          · rename_i ch rest1 he
            have h1 := parseEscape_length_lt _ _ _ he
            have h2 := ih _ _ _ _ h
            simp only [List.length_cons]
            omega
        · split at h
          · cases h
          · have h2 := ih _ _ _ _ h
            simp only [List.length_cons]
            omega

theorem takeDigits_length_le (cs : List Char) : (takeDigits cs).2.length ≤ cs.length := by
  induction cs with
  | nil => simp [takeDigits]
  | cons c cs ih =>
    simp only [takeDigits]
    split
    · exact Nat.le_succ_of_le ih
    · exact Nat.le_refl _

theorem takeDigits_snd_le (cs ds rest : List Char) (h : takeDigits cs = (ds, rest)) :
    rest.length ≤ cs.length := by
  have := takeDigits_length_le cs
  rw [h] at this
  exact this

theorem parseFrac_length_le (cs frac rest : List Char)
    (h : parseFrac cs = some (frac, rest)) : rest.length ≤ cs.length := by
  unfold parseFrac at h
  split at h
  · simp only [Option.some.injEq, Prod.mk.injEq] at h
    rw [← h.2]
  · split at h
    · split at h
      · cases h
      · rename_i htd
        simp only [Option.some.injEq, Prod.mk.injEq] at h
        rw [← h.2]
        have := takeDigits_snd_le _ _ _ htd
        simp only [List.length_cons]
        exact Nat.le_succ_of_le this
    · simp only [Option.some.injEq, Prod.mk.injEq] at h
      rw [← h.2]

theorem parseExp_length_le (cs ex rest : List Char)
    (h : parseExp cs = some (ex, rest)) : rest.length ≤ cs.length := by
  unfold parseExp at h
  split at h
  · simp only [Option.some.injEq, Prod.mk.injEq] at h
    rw [← h.2]
  · split at h
    · split at h
      · cases h
      · split at h
        · split at h
          · cases h
          · rename_i htd
            simp only [Option.some.injEq, Prod.mk.injEq] at h
            rw [← h.2]
            have := takeDigits_snd_le _ _ _ htd
            simp only [List.length_cons]
            omega
        · split at h
          · cases h
          · rename_i htd
            simp only [Option.some.injEq, Prod.mk.injEq] at h
            rw [← h.2]
            have := takeDigits_snd_le _ _ _ htd
            simp only [List.length_cons] at this ⊢
            omega
    · simp only [Option.some.injEq, Prod.mk.injEq] at h
      rw [← h.2]

theorem parseUnsigned_length_lt (cs raw rest : List Char)
    (h : parseUnsigned cs = some (raw, rest)) : rest.length < cs.length := by
  unfold parseUnsigned at h
  split at h
  · cases h
  · rename_i d rest0
    split at h
    · split at h
      · cases h
      · rename_i fr rest1 hfr
        split at h
        · cases h
        · rename_i ex rest2 hex
          simp only [Option.some.injEq, Prod.mk.injEq] at h
          rw [← h.2]
          have h1 := parseFrac_length_le _ _ _ hfr
          have h2 := parseExp_length_le _ _ _ hex
          simp only [List.length_cons]
          omega
    · split at h
      · split at h
        · cases h
        · rename_i fr rest1 hfr
          split at h
          · cases h
          · rename_i ex rest2 hex
            simp only [Option.some.injEq, Prod.mk.injEq] at h
            rw [← h.2]
            have h0 := takeDigits_length_le rest0
            have h1 := parseFrac_length_le _ _ _ hfr
            have h2 := parseExp_length_le _ _ _ hex
            simp only [List.length_cons]
            omega
      · cases h

theorem parseNumber_length_lt (cs raw rest : List Char)
    (h : parseNumber cs = some (raw, rest)) : rest.length < cs.length := by
  unfold parseNumber at h
  split at h
  · cases h
  · split at h
    · split at h
      · cases h
      · rename_i ds rest1 hu
        simp only [Option.some.injEq, Prod.mk.injEq] at h
        rw [← h.2]
        have := parseUnsigned_length_lt _ _ _ hu
        simp only [List.length_cons]
        omega
    · exact parseUnsigned_length_lt _ _ _ h

theorem dropPrefix_length_le (ps cs rest : List Char)
    (h : dropPrefix ps cs = some rest) : rest.length ≤ cs.length := by
  induction ps generalizing cs with
  | nil =>
    simp only [dropPrefix, Option.some.injEq] at h
    rw [h]
  | cons p ps ih =>
    cases cs with
    | nil => simp [dropPrefix] at h
    | cons c cs =>
      simp only [dropPrefix] at h
      split at h
      · have := ih _ h
        simp only [List.length_cons]
        omega
      · cases h


theorem skipSpace_cons_le (cs : List Char) (c : Char) (rest : List Char)
    (h : skipSpace cs = c :: rest) : rest.length + 1 ≤ cs.length := by
  have := skipSpace_length_le cs
  rw [h] at this
  exact this

theorem parseScalar_length_le (c : Char) (cs : List Char) (v : JSON) (rest : List Char)
    (h : parseScalar c cs = some (v, rest)) : rest.length ≤ cs.length := by
  unfold parseScalar at h
  split at h
  · split at h
    · cases h
    · rename_i hs
      simp only [Option.some.injEq, Prod.mk.injEq] at h
      rw [← h.2]
      exact Nat.le_of_lt (parseString_length_lt _ _ _ _ _ hs)
  · split at h
    · split at h
      · cases h
      · rename_i hs
        simp only [Option.some.injEq, Prod.mk.injEq] at h
        rw [← h.2]
        exact dropPrefix_length_le _ _ _ hs
    · split at h
      · split at h
        · cases h
        · rename_i hs
          simp only [Option.some.injEq, Prod.mk.injEq] at h
          rw [← h.2]
          exact dropPrefix_length_le _ _ _ hs
      · split at h
        · split at h
          · cases h
          · rename_i hs
            simp only [Option.some.injEq, Prod.mk.injEq] at h
            rw [← h.2]
            exact dropPrefix_length_le _ _ _ hs
        · split at h
          · split at h
            · cases h
            · rename_i hs
              simp only [Option.some.injEq, Prod.mk.injEq] at h
              rw [← h.2]
              have := parseNumber_length_lt _ _ _ hs
              simp only [List.length_cons] at this
              omega
          · cases h

/-- No parser returns more input than it was given. -/
theorem parse_length_le (n : Nat) :
    (∀ d cs v rest, parseValue n d cs = some (v, rest) → rest.length ≤ cs.length) ∧
    (∀ d cs ms rest, parseMembers n d cs = some (ms, rest) → rest.length ≤ cs.length) ∧
    (∀ d cs xs rest, parseElements n d cs = some (xs, rest) → rest.length ≤ cs.length) := by
  induction n with
  | zero =>
    refine ⟨?_, ?_, ?_⟩ <;> intro d cs v rest h
    · simp [parseValue] at h
    · simp [parseMembers] at h
    · simp [parseElements] at h
  | succ n ih =>
    obtain ⟨ihV, ihM, ihE⟩ := ih
    refine ⟨?_, ?_, ?_⟩
    · intro d cs v rest h
      rw [parseValue] at h
      split at h
      · cases h
      · rename_i c rest0 hsp
        have hsp1 := skipSpace_cons_le _ _ _ hsp
        split at h
        · split at h
          · cases h
          · split at h
            · cases h
            · rename_i c1 rest1 hsp2
              have hsp3 := skipSpace_cons_le _ _ _ hsp2
              split at h
              · simp only [Option.some.injEq, Prod.mk.injEq] at h
                rw [← h.2]
                omega
              · split at h
                · split at h
                  · cases h
                  · rename_i hm
                    simp only [Option.some.injEq, Prod.mk.injEq] at h
                    rw [← h.2]
                    have := ihM _ _ _ _ hm
                    omega
                · cases h
        · split at h
          · split at h
            · cases h
            · split at h
              · cases h
              · rename_i c1 rest1 hsp2
                have hsp3 := skipSpace_cons_le _ _ _ hsp2
                split at h
                · simp only [Option.some.injEq, Prod.mk.injEq] at h
                  rw [← h.2]
                  omega
                · split at h
                  · cases h
                  · rename_i hm
                    simp only [Option.some.injEq, Prod.mk.injEq] at h
                    rw [← h.2]
                    have := ihE _ _ _ _ hm
                    simp only [List.length_cons] at this
                    omega
          · have := parseScalar_length_le _ _ _ _ h
            omega
    · intro d cs ms rest h
      rw [parseMembers] at h
      split at h
      · cases h
      · rename_i key rest0 hs
        have hs1 := parseString_length_lt _ _ _ _ _ hs
        split at h
        · cases h
        · rename_i c rest1 hsp
          have hsp1 := skipSpace_cons_le _ _ _ hsp
          split at h
          · split at h
            · cases h
            · rename_i v rest2 hv
              have hv1 := ihV _ _ _ _ hv
              split at h
              · cases h
              · rename_i c1 rest3 hsp2
                have hsp3 := skipSpace_cons_le _ _ _ hsp2
                split at h
                · simp only [Option.some.injEq, Prod.mk.injEq] at h
                  rw [← h.2]
                  omega
                · split at h
                  · split at h
                    · cases h
                    · rename_i c2 rest4 hsp4
                      have hsp5 := skipSpace_cons_le _ _ _ hsp4
                      split at h
                      · split at h
                        · cases h
                        · rename_i hm
                          simp only [Option.some.injEq, Prod.mk.injEq] at h
                          rw [← h.2]
                          have := ihM _ _ _ _ hm
                          omega
                      · cases h
                  · cases h
          · cases h
    · intro d cs xs rest h
      rw [parseElements] at h
      split at h
      · cases h
      · rename_i v rest0 hv
        have hv1 := ihV _ _ _ _ hv
        split at h
        · cases h
        · rename_i c rest1 hsp
          have hsp1 := skipSpace_cons_le _ _ _ hsp
          split at h
          · simp only [Option.some.injEq, Prod.mk.injEq] at h
            rw [← h.2]
            omega
          · split at h
            · split at h
              · cases h
              · rename_i hm
                simp only [Option.some.injEq, Prod.mk.injEq] at h
                rw [← h.2]
                have := ihE _ _ _ _ hm
                omega
            · cases h


/-- A string literal found with some fuel is found with any fuel above the
length of the input. -/
theorem parseString_fuel (n : Nat) : ∀ (m : Nat) (cs acc : List Char) (r : String × List Char),
    parseString n cs acc = some r → cs.length < m → parseString m cs acc = some r := by
  induction n with
  | zero => intro m cs acc r h; simp [parseString] at h
  | succ n ih =>
    intro m cs acc r h hm
    cases cs with
    | nil => simp [parseString] at h
    | cons c cs =>
      cases m with
      | zero => simp at hm
      | succ m =>
        simp only [List.length_cons, Nat.add_lt_add_iff_right] at hm
        simp only [parseString] at h ⊢
        by_cases h1 : c = '"'
        · rw [if_pos h1] at h ⊢
          exact h
        · rw [if_neg h1] at h ⊢
          by_cases h2 : c = '\\'
          · rw [if_pos h2] at h ⊢
            cases he : parseEscape cs with
            | none =>
              rw [he] at h
              cases h
            | some p =>
              obtain ⟨ch, rest⟩ := p
              rw [he] at h
              simp only at h ⊢
              have := parseEscape_length_lt _ _ _ he
              exact ih _ _ _ _ h (by omega)
          · rw [if_neg h2] at h ⊢
            by_cases h3 : c.toNat < 0x20
            · rw [if_pos h3] at h
              cases h
            · rw [if_neg h3] at h ⊢
              exact ih _ _ _ _ h hm


/-- A parse found with some fuel is found with any fuel above twice the
length of the input. -/
theorem parse_fuel (n : Nat) :
    (∀ m d cs r, parseValue n d cs = some r → 2 * cs.length + 2 ≤ m →
      parseValue m d cs = some r) ∧
    (∀ m d cs r, parseMembers n d cs = some r → 2 * cs.length + 3 ≤ m →
      parseMembers m d cs = some r) ∧
    (∀ m d cs r, parseElements n d cs = some r → 2 * cs.length + 3 ≤ m →
      parseElements m d cs = some r) := by
  induction n with
  | zero =>
    refine ⟨?_, ?_, ?_⟩ <;> intro m d cs r h
    · simp [parseValue] at h
    · simp [parseMembers] at h
    · simp [parseElements] at h
  | succ n ih =>
    obtain ⟨ihV, ihM, ihE⟩ := ih
    have hle := parse_length_le n
    refine ⟨?_, ?_, ?_⟩
    · intro m d cs r h hm
      cases m with
      | zero => omega
      | succ m =>
        rw [parseValue] at h ⊢
        cases hsp : skipSpace cs with
        | nil =>
          rw [hsp] at h
          cases h
        | cons c rest0 =>
          have hsp1 := skipSpace_cons_le _ _ _ hsp
          rw [hsp] at h
          simp only at h ⊢
          by_cases h1 : c = '{'
          · rw [if_pos h1] at h ⊢
            by_cases hd : d + 1 > maxNestingDepth
            · rw [if_pos hd] at h
              cases h
            · rw [if_neg hd] at h ⊢
              cases hsp2 : skipSpace rest0 with
              | nil =>
                rw [hsp2] at h
                cases h
              | cons c1 rest1 =>
                have hsp3 := skipSpace_cons_le _ _ _ hsp2
                rw [hsp2] at h
                simp only at h ⊢
                by_cases h2 : c1 = '}'
                · rw [if_pos h2] at h ⊢
                  exact h
                · rw [if_neg h2] at h ⊢
                  by_cases h3 : c1 = '"'
                  · rw [if_pos h3] at h ⊢
                    cases hp : parseMembers n (d + 1) rest1 with
                    | none =>
                      rw [hp] at h
                      cases h
                    | some q =>
                      rw [hp] at h
                      rw [ihM m (d + 1) rest1 q hp (by omega)]
                      exact h
                  · rw [if_neg h3] at h
                    cases h
          · rw [if_neg h1] at h ⊢
            by_cases h4 : c = '['
            · rw [if_pos h4] at h ⊢
              by_cases hd : d + 1 > maxNestingDepth
              · rw [if_pos hd] at h
                cases h
              · rw [if_neg hd] at h ⊢
                cases hsp2 : skipSpace rest0 with
                | nil =>
                  rw [hsp2] at h
                  cases h
                | cons c1 rest1 =>
                  have hsp3 := skipSpace_cons_le _ _ _ hsp2
                  rw [hsp2] at h
                  simp only at h ⊢
                  by_cases h2 : c1 = ']'
                  · rw [if_pos h2] at h ⊢
                    exact h
                  · rw [if_neg h2] at h ⊢
                    cases hp : parseElements n (d + 1) (c1 :: rest1) with
                    | none =>
                      rw [hp] at h
                      cases h
                    | some q =>
                      rw [hp] at h
                      rw [ihE m (d + 1) (c1 :: rest1) q hp
                        (by simp only [List.length_cons]; omega)]
                      exact h
            · rw [if_neg h4] at h ⊢
              exact h
    · intro m d cs r h hm
      cases m with
      | zero => omega
      | succ m =>
        rw [parseMembers] at h ⊢
        cases hs : parseString (cs.length + 1) cs [] with
        | none =>
          rw [hs] at h
          cases h
        | some p =>
          obtain ⟨key, rest0⟩ := p
          have hs1 := parseString_length_lt _ _ _ _ _ hs
          rw [hs] at h
          simp only at h ⊢
          cases hsp : skipSpace rest0 with
          | nil =>
            rw [hsp] at h
            cases h
          | cons c rest1 =>
            have hsp1 := skipSpace_cons_le _ _ _ hsp
            rw [hsp] at h
            simp only at h ⊢
            by_cases h1 : c = ':'
            · rw [if_pos h1] at h ⊢
              cases hv : parseValue n d rest1 with
              | none =>
                rw [hv] at h
                cases h
              | some q =>
                obtain ⟨v, rest2⟩ := q
                have hv1 := hle.1 _ _ _ _ hv
                rw [hv] at h
                rw [ihV m d rest1 (v, rest2) hv (by omega)]
                simp only at h ⊢
                cases hsp2 : skipSpace rest2 with
                | nil =>
                  rw [hsp2] at h
                  cases h
                | cons c1 rest3 =>
                  have hsp3 := skipSpace_cons_le _ _ _ hsp2
                  rw [hsp2] at h
                  simp only at h ⊢
                  by_cases h2 : c1 = '}'
                  · rw [if_pos h2] at h ⊢
                    exact h
                  · rw [if_neg h2] at h ⊢
                    by_cases h3 : c1 = ','
                    · rw [if_pos h3] at h ⊢
                      cases hsp4 : skipSpace rest3 with
                      | nil =>
                        rw [hsp4] at h
                        cases h
                      | cons c2 rest4 =>
                        have hsp5 := skipSpace_cons_le _ _ _ hsp4
                        rw [hsp4] at h
                        simp only at h ⊢
                        by_cases h5 : c2 = '"'
                        · rw [if_pos h5] at h ⊢
                          cases hp : parseMembers n d rest4 with
                          | none =>
                            rw [hp] at h
                            cases h
                          | some q2 =>
                            rw [hp] at h
                            rw [ihM m d rest4 q2 hp (by omega)]
                            exact h
                        · rw [if_neg h5] at h
                          cases h
                    · rw [if_neg h3] at h
                      cases h
            · rw [if_neg h1] at h
              cases h
    · intro m d cs r h hm
      cases m with
      | zero => omega
      | succ m =>
        rw [parseElements] at h ⊢
        cases hv : parseValue n d cs with
        | none =>
          rw [hv] at h
          cases h
        | some q =>
          obtain ⟨v, rest0⟩ := q
          have hv1 := hle.1 _ _ _ _ hv
          rw [hv] at h
          rw [ihV m d cs (v, rest0) hv (by omega)]
          simp only at h ⊢
          cases hsp : skipSpace rest0 with
          | nil =>
            rw [hsp] at h
            cases h
          | cons c rest1 =>
            have hsp1 := skipSpace_cons_le _ _ _ hsp
            rw [hsp] at h
            simp only at h ⊢
            by_cases h1 : c = ']'
            · rw [if_pos h1] at h ⊢
              exact h
            · rw [if_neg h1] at h ⊢
              by_cases h2 : c = ','
              · rw [if_pos h2] at h ⊢
                cases hp : parseElements n d rest1 with
                | none =>
                  rw [hp] at h
                  cases h
                | some q2 =>
                  rw [hp] at h
                  rw [ihE m d rest1 q2 hp (by omega)]
                  exact h
              · rw [if_neg h2] at h
                cases h

/-- The fuel `jsonDecode` gives to the parser is enough: a value that any
amount of fuel finds at the head of the body is the value it finds. -/
theorem jsonDecode_fuel (body : String) (n : Nat) (v : JSON) (rest : List Char)
    (h : parseValue n 0 body.toList = some (v, rest)) :
    parseValue (2 * body.length + 2) 0 body.toList = some (v, rest) :=
  (parse_fuel n).1 (2 * body.length + 2) 0 body.toList (v, rest) h (Nat.le_refl _)

/-! ## Lemmas on the keyring and on the write loop -/

theorem override_nil (e : Entries) : override e [] = e := by
  funext s u
  simp [override, mapGet]

theorem mapGet_eq_none_of_not_mem {m : Creds} {k : String}
    (h : k ∉ m.map Prod.fst) : mapGet m k = none := by
  induction m with
  | nil => rfl
  | cons p m ih =>
    obtain ⟨k1, v1⟩ := p
    simp only [List.map_cons, List.mem_cons, not_or] at h
    simp only [mapGet]
    rw [if_neg (fun hk => h.1 hk.symm)]
    exact ih h.2

theorem mapGet_of_mem {m : Creds} {k v : String} (hnd : (m.map Prod.fst).Nodup)
    (h : (k, v) ∈ m) : mapGet m k = some v := by
  induction m with
  | nil => cases h
  | cons p m ih =>
    obtain ⟨k1, v1⟩ := p
    simp only [List.map_cons, List.nodup_cons] at hnd
    simp only [mapGet]
    rcases List.mem_cons.1 h with heq | hmem
    · cases heq
      simp
    · have hne : k1 ≠ k := by
        intro hk
        subst hk
        exact hnd.1 (List.mem_map.2 ⟨(k1, v), hmem, rfl⟩)
      rw [if_neg hne]
      exact ih hnd.2 hmem

theorem mapGet_mem {m : Creds} {k v : String} (h : mapGet m k = some v) : (k, v) ∈ m := by
  induction m with
  | nil => cases h
  | cons p m ih =>
    obtain ⟨k1, v1⟩ := p
    simp only [mapGet] at h
    by_cases hk : k1 = k
    · rw [if_pos hk] at h
      cases h
      subst hk
      exact List.mem_cons_self _ _
    · rw [if_neg hk] at h
      exact List.mem_cons_of_mem _ (ih h)

theorem mapGet_perm {m1 m2 : Creds} (hp : m1.Perm m2) (hnd : (m2.map Prod.fst).Nodup)
    (k : String) : mapGet m1 k = mapGet m2 k := by
  have hnd1 : (m1.map Prod.fst).Nodup := (hp.map Prod.fst).nodup_iff.2 hnd
  cases h1 : mapGet m1 k with
  | some v => exact (mapGet_of_mem hnd (hp.subset (mapGet_mem h1))).symm
  | none =>
    cases h2 : mapGet m2 k with
    | none => rfl
    | some v =>
      have := mapGet_of_mem hnd1 (hp.symm.subset (mapGet_mem h2))
      rw [h1] at this
      cases this

theorem override_perm {m1 m2 : Creds} (hp : m1.Perm m2) (hnd : (m2.map Prod.fst).Nodup)
    (e : Entries) : override e m1 = override e m2 := by
  funext s u
  simp only [override, mapGet_perm hp hnd u]

theorem override_set_cons (e : Entries) (k v : String) (m : Creds)
    (hk : k ∉ m.map Prod.fst) :
    override (e.set nuvSecretServiceName k v) m = override e ((k, v) :: m) := by
  funext s u
  simp only [override, mapGet, Entries.set]
  by_cases hs : s = nuvSecretServiceName
  · simp only [hs, if_true, true_and]
    by_cases hu : k = u
    · subst hu
      simp [mapGet_eq_none_of_not_mem hk]
    · have hu2 : ¬ u = k := fun h => hu h.symm
      simp [hu, hu2]
  · simp [hs]

theorem override_idem (e : Entries) (m : Creds) : override (override e m) m = override e m := by
  funext s u
  simp only [override]
  by_cases hs : s = nuvSecretServiceName
  · simp only [hs, if_true]
    cases h : mapGet m u <;> simp
  · simp [hs]


theorem nodup_keys_of_append_cons {pre pre1 pre2 : Creds} {p : String × String}
    (hnd : (pre.map Prod.fst).Nodup) (h : pre = pre1 ++ p :: pre2) :
    p.1 ∉ pre1.map Prod.fst := by
  subst h
  simp only [List.map_append, List.map_cons] at hnd
  have h2 := (List.nodup_append.1 hnd).2.2
  intro hmem
  exact h2 hmem (List.mem_cons_self _ _)

/-- While no write faults, the loop turns a prefix of the pairs into an
override of the keyring and continues with the remaining pairs. -/
theorem storeLoop_prefix (env : Env) (pre rest : Creds) (w : World)
    (hnd : (pre.map Prod.fst).Nodup)
    (hok : ∀ pre1 p pre2, pre = pre1 ++ p :: pre2 →
      env.setFault (override w.entries pre1) nuvSecretServiceName p.1 p.2 = none) :
    storeLoop env (pre ++ rest) w =
      storeLoop env rest
        { w with entries := override w.entries pre, setLog := w.setLog ++ writesOf pre } := by
  induction pre generalizing w with
  | nil =>
    simp only [List.nil_append, override_nil, writesOf, List.map_nil, List.append_nil]
  | cons p pre ih =>
    obtain ⟨k, v⟩ := p
    have h0 := hok [] (k, v) pre rfl
    rw [override_nil] at h0
    simp only [List.map_cons, List.nodup_cons] at hnd
    show storeLoop env ((k, v) :: (pre ++ rest)) w = _
    simp only [storeLoop, keyringSet, h0]
    rw [ih _ hnd.2]
    · simp only [override_set_cons _ _ _ _ hnd.1, writesOf, List.map_cons, List.append_assoc,
        List.singleton_append]
    · intro pre1 p pre2 hp
      have h1 := hok ((k, v) :: pre1) p pre2 (by rw [hp]; rfl)
      have hk : k ∉ pre1.map Prod.fst := by
        intro hmem
        apply hnd.1
        rw [hp]
        simp only [List.map_append, List.mem_append]
        exact Or.inl hmem
      simpa only [override_set_cons _ _ _ _ hk] using h1

/-- A run of the loop that reports no error has overridden the keyring with
all the pairs. -/
theorem storeLoop_ok (env : Env) (l : Creds) (w w1 : World)
    (hnd : (l.map Prod.fst).Nodup) (h : storeLoop env l w = (none, w1)) :
    w1.entries = override w.entries l := by
  induction l generalizing w with
  | nil =>
    simp only [storeLoop, Prod.mk.injEq, true_and] at h
    rw [← h, override_nil]
  | cons p l ih =>
    obtain ⟨k, v⟩ := p
    simp only [List.map_cons, List.nodup_cons] at hnd
    simp only [storeLoop, keyringSet] at h
    cases hf : env.setFault w.entries nuvSecretServiceName k v with
    | some e =>
      rw [hf] at h
      simp at h
    | none =>
      rw [hf] at h
      have := ih _ hnd.2 h
      rw [this]
      exact override_set_cons _ _ _ _ hnd.1


/-! ## Lemmas on the decoded map -/

theorem mapSet_keys (m : Creds) (k v : String) :
    ∀ x, x ∈ (mapSet m k v).map Prod.fst ↔ x = k ∨ x ∈ m.map Prod.fst := by
  induction m with
  | nil => intro x; simp [mapSet]
  | cons p m ih =>
    obtain ⟨k1, v1⟩ := p
    intro x
    simp only [mapSet]
    by_cases hk : k1 = k
    · subst hk
      simp
    · rw [if_neg hk]
      simp only [List.map_cons, List.mem_cons, ih x]
      tauto

theorem mapSet_nodup (m : Creds) (k v : String) (h : (m.map Prod.fst).Nodup) :
    ((mapSet m k v).map Prod.fst).Nodup := by
  induction m with
  | nil => simp [mapSet]
  | cons p m ih =>
    obtain ⟨k1, v1⟩ := p
    simp only [List.map_cons, List.nodup_cons] at h
    simp only [mapSet]
    by_cases hk : k1 = k
    · subst hk
      rw [if_pos rfl]
      simpa only [List.map_cons, List.nodup_cons] using h
    · rw [if_neg hk]
      simp only [List.map_cons, List.nodup_cons]
      refine ⟨?_, ih h.2⟩
      intro hmem
      rcases (mapSet_keys m k v k1).1 hmem with h1 | h1
      · exact hk h1
      · exact h.1 h1

theorem unmarshalMembers_nodup (ms : List (String × JSON)) (m m1 : Creds)
    (h : (m.map Prod.fst).Nodup) (hm : unmarshalMembers ms m = some m1) :
    (m1.map Prod.fst).Nodup := by
  induction ms generalizing m with
  | nil =>
    simp only [unmarshalMembers, Option.some.injEq] at hm
    rw [← hm]
    exact h
  | cons p ms ih =>
    obtain ⟨k, j⟩ := p
    cases j with
    | null => exact ih _ (mapSet_nodup m k "" h) (by simpa only [unmarshalMembers] using hm)
    | str s => exact ih _ (mapSet_nodup m k s h) (by simpa only [unmarshalMembers] using hm)
    | bool b => simp [unmarshalMembers] at hm
    | num raw => simp [unmarshalMembers] at hm
    | arr xs => simp [unmarshalMembers] at hm
    | obj o => simp [unmarshalMembers] at hm

theorem unmarshalMap_nodup (v : JSON) (m : Creds) (h : unmarshalMap v = some m) :
    (m.map Prod.fst).Nodup := by
  cases v with
  | null =>
    simp only [unmarshalMap, Option.some.injEq] at h
    rw [← h]
    exact List.nodup_nil
  | obj ms => exact unmarshalMembers_nodup ms [] m List.nodup_nil h
  | bool b => simp [unmarshalMap] at h
  | num raw => simp [unmarshalMap] at h
  | arr xs => simp [unmarshalMap] at h
  | str s => simp [unmarshalMap] at h

theorem jsonDecode_nodup (body : String) (readErr : Option Error) (m : Creds)
    (h : jsonDecode body readErr = some m) : (m.map Prod.fst).Nodup := by
  simp only [jsonDecode] at h
  split at h
  · cases h
  · rename_i v rest _
    cases readErr with
    | none => exact unmarshalMap_nodup v m h
    | some e =>
      simp only at h
      split at h
      · exact unmarshalMap_nodup v m h
      · cases h

/-- The credentials `doLogin` returns depend on the endpoint only, and form a
map. -/
theorem doLogin_fst (env : Env) (url user p : String) (w : World) :
    (doLogin env url user p w).1 =
      match env.httpPost ⟨"POST", url, "application/json", [("login", user), ("password", p)]⟩ with
      | Except.error err => Except.error err
      | Except.ok resp =>
        if resp.StatusCode ≠ 200 then
          match readAll resp with
          | none => Except.error ("login failed with status code " ++ toString resp.StatusCode)
          | some body =>
            Except.error ("login failed (" ++ toString resp.StatusCode ++ "): " ++ body)
        else
          match jsonDecode resp.Body resp.BodyErr with
          | none => Except.error errDecode
          | some creds => Except.ok creds := by
  simp only [doLogin]
  split
  · rfl
  · split
    · split <;> rfl
    · split <;> rfl

theorem doLogin_ok_nodup (env : Env) (url user p : String) (w : World) (creds : Creds)
    (h : (doLogin env url user p w).1 = Except.ok creds) : (creds.map Prod.fst).Nodup := by
  rw [doLogin_fst] at h
  split at h
  · cases h
  · split at h
    · split at h <;> cases h
    · rename_i resp _ _
      cases hd : jsonDecode resp.Body resp.BodyErr with
      | none => simp [hd] at h
      | some m =>
        simp only [hd, Except.ok.injEq] at h
        rw [← h]
        exact jsonDecode_nodup _ _ m hd

/-! ## The credential store writer -/

/-- A run of `storeCredentials` over a map in which each write, made on the
keyring as the writes before it left it, succeeds. -/
theorem storeCredentials_all_ok (env : Env) (creds : Creds) (w : World)
    (hkeys : (creds.map Prod.fst).Nodup)
    (hperm : (env.rangeOrder creds).Perm creds)
    (hset : ∀ pre1 p pre2, env.rangeOrder creds = pre1 ++ p :: pre2 →
      env.setFault (override w.entries pre1) nuvSecretServiceName p.1 p.2 = none) :
    storeCredentials env creds w =
      (none, { w with entries := override w.entries creds,
                      setLog := w.setLog ++ writesOf (env.rangeOrder creds) }) := by
  have hnd : ((env.rangeOrder creds).map Prod.fst).Nodup :=
    (hperm.map Prod.fst).nodup_iff.2 hkeys
  have h := storeLoop_prefix env (env.rangeOrder creds) [] w hnd hset
  rw [List.append_nil] at h
  rw [storeCredentials, h, override_perm hperm hkeys]
  rfl

/-- A run of `storeCredentials` over a map on a keyring that never faults on a
write. -/
theorem storeCredentials_no_fault (env : Env) (creds : Creds) (w : World)
    (hkeys : (creds.map Prod.fst).Nodup)
    (hperm : (env.rangeOrder creds).Perm creds)
    (hset : ∀ e s k v, env.setFault e s k v = none) :
    storeCredentials env creds w =
      (none, { w with entries := override w.entries creds,
                      setLog := w.setLog ++ writesOf (env.rangeOrder creds) }) :=
  storeCredentials_all_ok env creds w hkeys hperm (fun _ _ _ _ => hset _ _ _ _)

/-- A run of `storeCredentials` over a map that reports no error. -/
theorem storeCredentials_ok (env : Env) (creds : Creds) (w w5 : World)
    (hkeys : (creds.map Prod.fst).Nodup)
    (hperm : (env.rangeOrder creds).Perm creds)
    (h : storeCredentials env creds w = (none, w5)) :
    w5.entries = override w.entries creds := by
  have hnd : ((env.rangeOrder creds).map Prod.fst).Nodup :=
    (hperm.map Prod.fst).nodup_iff.2 hkeys
  rw [storeLoop_ok env _ w w5 hnd h, override_perm hperm hkeys]

/-- C2: if every keyring write succeeds (each write of the run, made on the
keyring as the writes before it left it), `storeCredentials creds` returns nil
and leaves the keyring equal to the initial keyring overridden with the pairs
of `creds` under the service `nuvolaris`: every key of `creds` reads back its
value, every other entry is unchanged, and a run in another iteration order
whose writes succeed gives the same keyring. -/
theorem storeCredentials_writes_all (env env2 : Env) (creds : Creds) (w : World)
    (hkeys : (creds.map Prod.fst).Nodup)
    (hperm : (env.rangeOrder creds).Perm creds)
    (hset : ∀ pre1 p pre2, env.rangeOrder creds = pre1 ++ p :: pre2 →
      env.setFault (override w.entries pre1) nuvSecretServiceName p.1 p.2 = none)
    (hperm2 : (env2.rangeOrder creds).Perm creds)
    (hset2 : ∀ pre1 p pre2, env2.rangeOrder creds = pre1 ++ p :: pre2 →
      env2.setFault (override w.entries pre1) nuvSecretServiceName p.1 p.2 = none) :
    storeCredentials env creds w =
        (none, { w with entries := override w.entries creds,
                        setLog := w.setLog ++ writesOf (env.rangeOrder creds) }) ∧
      (∀ k v, (k, v) ∈ creds →
        (storeCredentials env creds w).2.entries nuvSecretServiceName k = some v) ∧
      (∀ k v, (k, v) ∈ creds →
        env.getFault (storeCredentials env creds w).2.entries nuvSecretServiceName k = none →
        keyringGet env nuvSecretServiceName k (storeCredentials env creds w).2 = Except.ok v) ∧
      (∀ s k, s ≠ nuvSecretServiceName ∨ k ∉ creds.map Prod.fst →
        (storeCredentials env creds w).2.entries s k = w.entries s k) ∧
      (storeCredentials env2 creds w).2.entries = (storeCredentials env creds w).2.entries := by
  have h1 := storeCredentials_all_ok env creds w hkeys hperm hset
  have h2 := storeCredentials_all_ok env2 creds w hkeys hperm2 hset2
  have hget : ∀ k v, (k, v) ∈ creds →
      override w.entries creds nuvSecretServiceName k = some v := by
    intro k v hmem
    simp only [override, if_true, mapGet_of_mem hkeys hmem]
  refine ⟨h1, ?_, ?_, ?_, ?_⟩
  · intro k v hmem
    rw [h1]
    exact hget k v hmem
  · intro k v hmem hg
    rw [h1] at hg ⊢
    simp only [keyringGet, hg, hget k v hmem]
  · intro s k hsk
    rw [h1]
    simp only [override]
    rcases hsk with hs | hk
    · rw [if_neg hs]
    · rw [mapGet_eq_none_of_not_mem hk]
      split <;> rfl
  · rw [h1, h2]

/-- Witness of C2 on the map of `Test_storeCredentials`, written in listed and
in reverse order into an empty keyring. -/
theorem storeCredentials_writes_all_witness :
    (storeCredentials plainEnv fakeCreds emptyWorld).1 = none ∧
      (storeCredentials plainEnv fakeCreds emptyWorld).2.entries "nuvolaris" "MONGODB"
        = some "fakeValue" ∧
      (storeCredentials reverseEnv fakeCreds emptyWorld).2.entries
        = (storeCredentials plainEnv fakeCreds emptyWorld).2.entries := by
  have h := storeCredentials_writes_all plainEnv reverseEnv fakeCreds emptyWorld
    (by decide) (List.Perm.refl _) (fun _ _ _ _ => rfl) (List.reverse_perm _)
    (fun _ _ _ _ => rfl)
  refine ⟨?_, ?_, h.2.2.2.2⟩
  · rw [h.1]
  · exact h.2.1 "MONGODB" "fakeValue" (by decide)

/-- C3: if, in the iteration order `pre ++ (k, v) :: post`, the writes of the
pairs of `pre` succeed and the write of `(k, v)` fails with `err`, then
`storeCredentials` returns exactly `err`, has attempted the writes of `pre`
and of `(k, v)` and none of `post`, and leaves the keyring equal to the
initial one overridden with exactly the pairs of `pre` (no rollback). -/
theorem storeCredentials_fails_fast (env : Env) (creds pre post : Creds) (w : World)
    (k v : String) (err : Error)
    (hkeys : (creds.map Prod.fst).Nodup)
    (hperm : (env.rangeOrder creds).Perm creds)
    (horder : env.rangeOrder creds = pre ++ (k, v) :: post)
    (hpre : ∀ pre1 p pre2, pre = pre1 ++ p :: pre2 →
      env.setFault (override w.entries pre1) nuvSecretServiceName p.1 p.2 = none)
    (hfail : env.setFault (override w.entries pre) nuvSecretServiceName k v = some err) :
    storeCredentials env creds w =
      (some err, { w with entries := override w.entries pre,
                          setLog := w.setLog ++ writesOf pre ++ [(nuvSecretServiceName, k, v)] }) := by
  have hnd : ((pre ++ (k, v) :: post).map Prod.fst).Nodup := by
    rw [← horder]
    exact (hperm.map Prod.fst).nodup_iff.2 hkeys
  have hndpre : (pre.map Prod.fst).Nodup := by
    rw [List.map_append] at hnd
    exact (List.nodup_append.1 hnd).1
  rw [storeCredentials, horder, storeLoop_prefix env pre ((k, v) :: post) w hndpre hpre]
  simp only [storeLoop, keyringSet, hfail]

/-- Witness of C3: the keyring refuses `REDIS_URL`, the second of three pairs;
`AUTH` stays written, `MONGODB` is never attempted. -/
theorem storeCredentials_fails_fast_witness :
    (storeCredentials faultyEnv fakeCreds emptyWorld).1 = some "keyring locked" ∧
      (storeCredentials faultyEnv fakeCreds emptyWorld).2.entries "nuvolaris" "AUTH"
        = some "fakeValue" ∧
      (storeCredentials faultyEnv fakeCreds emptyWorld).2.entries "nuvolaris" "MONGODB" = none ∧
      (storeCredentials faultyEnv fakeCreds emptyWorld).2.setLog
        = [("nuvolaris", "AUTH", "fakeValue"), ("nuvolaris", "REDIS_URL", "fakeValue")] := by
  have h := storeCredentials_fails_fast faultyEnv fakeCreds [("AUTH", "fakeValue")]
    [("MONGODB", "fakeValue")] emptyWorld "REDIS_URL" "fakeValue" "keyring locked"
    (by decide) (List.Perm.refl _) rfl
    (by
      intro pre1 p pre2 hp
      have hp1 : p = ("AUTH", "fakeValue") := by
        cases pre1 with
        | nil => simp at hp; exact hp.1.symm
        | cons q pre1 =>
          simp at hp
      subst hp1
      rfl)
    rfl
  rw [h]
  refine ⟨rfl, ?_, ?_, rfl⟩ <;> decide

/-! ## The command orchestrator -/

/-- With a host argument and a password, `LoginCmd` is the login request
followed by the store and the read-back. -/
theorem LoginCmd_eq (env : Env) (w : World) (host : String) (rest : List String)
    (p : String)
    (hhelp : env.helpFlag = false) (hargs : env.args = host :: rest)
    (hpwd : env.askPassword = Except.ok p) :
    LoginCmd env w =
      afterLogin env (rest.headD defaultUser) host
        (doLogin env (host ++ whiskLoginPath) (rest.headD defaultUser) p (prompted w)) := by
  have huser : (if (host :: rest).length > 1 then (host :: rest).getD 1 "" else defaultUser)
      = rest.headD defaultUser := by
    cases rest <;> simp
  simp only [LoginCmd, hhelp, hargs, hpwd, huser, afterLogin, prompted]
  simp only [Bool.false_eq_true, if_false, List.length_cons, Nat.add_one_ne_zero,
    List.getD_cons_zero]
  rfl

theorem doLogin_requests (env : Env) (url user p : String) (w : World) :
    (doLogin env url user p w).2 =
      { w with requests := w.requests ++
          [⟨"POST", url, "application/json", [("login", user), ("password", p)]⟩] } := by
  simp only [doLogin]
  split
  · rfl
  · split
    · split <;> rfl
    · split <;> rfl

theorem keyringSet_frame (env : Env) (s k v : String) (w : World) :
    (keyringSet env s k v w).2.requests = w.requests ∧
      (keyringSet env s k v w).2.stdout = w.stdout ∧
      (keyringSet env s k v w).2.pwdReads = w.pwdReads := by
  simp only [keyringSet]
  split <;> exact ⟨rfl, rfl, rfl⟩

theorem storeLoop_frame (env : Env) (l : Creds) (w : World) :
    (storeLoop env l w).2.requests = w.requests ∧
      (storeLoop env l w).2.stdout = w.stdout ∧
      (storeLoop env l w).2.pwdReads = w.pwdReads := by
  induction l generalizing w with
  | nil => exact ⟨rfl, rfl, rfl⟩
  | cons p l ih =>
    obtain ⟨k, v⟩ := p
    have hf := keyringSet_frame env nuvSecretServiceName k v w
    simp only [storeLoop]
    cases hs : keyringSet env nuvSecretServiceName k v w with
    | mk r w1 =>
      rw [hs] at hf
      cases r with
      | some e => exact hf
      | none =>
        simp only
        have := ih w1
        exact ⟨this.1.trans hf.1, this.2.1.trans hf.2.1, this.2.2.trans hf.2.2⟩

theorem afterLogin_frame (env : Env) (user host : String) (r : Except Error Creds × World) :
    (afterLogin env user host r).2.requests = r.2.requests := by
  obtain ⟨x, w4⟩ := r
  cases x with
  | error e => rfl
  | ok creds =>
    have hf := (storeLoop_frame env (env.rangeOrder creds) w4).1
    simp only [afterLogin, storeCredentials]
    cases hs : storeLoop env (env.rangeOrder creds) w4 with
    | mk r w5 =>
      rw [hs] at hf
      cases r with
      | some e => exact hf
      | none =>
        simp only
        split <;> exact hf


/-- C6: without a help flag and without positional arguments, `LoginCmd`
prints the usage text, returns a nil result with the error
`missing apihost`, and does nothing else: no password is read, no request is
issued, the keyring is neither written nor changed. -/
theorem LoginCmd_missing_apihost (env : Env) (w : World)
    (hhelp : env.helpFlag = false) (hargs : env.args = []) :
    LoginCmd env w =
      ((none, some "missing apihost"), { w with stdout := w.stdout ++ usage ++ "\n" }) := by
  simp [LoginCmd, hhelp, hargs, println]

/-- Witness of C6 on an empty keyring. -/
theorem LoginCmd_missing_apihost_witness :
    LoginCmd plainEnv emptyWorld =
      ((none, some "missing apihost"),
        { emptyWorld with stdout := emptyWorld.stdout ++ usage ++ "\n" }) :=
  LoginCmd_missing_apihost plainEnv emptyWorld rfl rfl

/-- C5: with at least one positional argument, a zero-length secret from the
password reader (with or without a reader fault) makes `LoginCmd` return a
nil result and the error `password is empty`; no request is issued and the
keyring is neither written nor changed. -/
theorem LoginCmd_empty_password (env : Env) (w : World) (secret : String)
    (fault : Option Error)
    (hhelp : env.helpFlag = false) (hargs : env.args ≠ [])
    (hlen : secret.length = 0)
    (hask : env.askPassword = AskPassword secret fault) :
    LoginCmd env w =
      ((none, some "password is empty"),
        { w with stdout := w.stdout ++ "Enter Password: ", pwdReads := w.pwdReads + 1 }) ∧
      (LoginCmd env w).2.requests = w.requests ∧
      (LoginCmd env w).2.setLog = w.setLog ∧
      (LoginCmd env w).2.entries = w.entries := by
  have hne : ¬ env.args.length = 0 := by
    intro h
    exact hargs (List.length_eq_zero.1 h)
  have h : LoginCmd env w =
      ((none, some "password is empty"),
        { w with stdout := w.stdout ++ "Enter Password: ", pwdReads := w.pwdReads + 1 }) := by
    simp [LoginCmd, hhelp, hne, hask, AskPassword, hlen, print]
  rw [h]
  exact ⟨rfl, rfl, rfl, rfl⟩

/-- Witness of C5: the first test of `TestLoginCmd` (arguments `fakeApiHost`
and `fakeUser`, empty password), here with a reader that also reports a
fault. -/
theorem LoginCmd_empty_password_witness :
    (LoginCmd (mkEnv ["fakeApiHost", "fakeUser"] (AskPassword "" (some "EOF")) 200 "" none id)
        emptyWorld).1 = (none, some "password is empty") ∧
      (LoginCmd (mkEnv ["fakeApiHost", "fakeUser"] (AskPassword "" (some "EOF")) 200 "" none id)
        emptyWorld).2.requests = [] := by
  have h := LoginCmd_empty_password
    (mkEnv ["fakeApiHost", "fakeUser"] (AskPassword "" (some "EOF")) 200 "" none id)
    emptyWorld "" (some "EOF") rfl (by decide) rfl rfl
  exact ⟨by rw [h.1], h.2.1⟩

/-! ## The login client -/

/-- C7: for every response with a status code `c` other than 200, `doLogin`
returns no credentials and an error: `login failed (c): b` when the body reads
as the text `b` (so the message contains the decimal code and the body), and
`login failed with status code c` when the body cannot be read. -/
theorem doLogin_non_200 (env : Env) (url user password : String) (w : World)
    (c : Nat) (text : String) (readErr : Option Error)
    (hpost : env.httpPost ⟨"POST", url, "application/json",
      [("login", user), ("password", password)]⟩ = Except.ok ⟨c, text, readErr⟩)
    (hc : c ≠ 200) :
    (readErr = none →
        (doLogin env url user password w).1 =
          Except.error ("login failed (" ++ toString c ++ "): " ++ text)) ∧
      (∀ e, readErr = some e →
        (doLogin env url user password w).1 =
          Except.error ("login failed with status code " ++ toString c)) := by
  constructor
  · intro hb
    subst hb
    simp only [doLogin, hpost, ne_eq, hc, not_false_eq_true, if_true, readAll]
  · intro e hb
    subst hb
    simp only [doLogin, hpost, ne_eq, hc, not_false_eq_true, if_true, readAll]

/-- Witness of C7: status 201 with body `created`, and status 204 with an
unreadable body. -/
theorem doLogin_non_200_witness :
    (doLogin (mkEnv [] (Except.ok "") 201 "created" none id) "u" "a" "b" emptyWorld).1
        = Except.error "login failed (201): created" ∧
      (doLogin (mkEnv [] (Except.ok "") 204 "" (some "unexpected EOF") id) "u" "a" "b"
          emptyWorld).1
        = Except.error "login failed with status code 204" := by
  have h1 := doLogin_non_200 (mkEnv [] (Except.ok "") 201 "created" none id)
    "u" "a" "b" emptyWorld 201 "created" none rfl (by decide)
  have h2 := doLogin_non_200 (mkEnv [] (Except.ok "") 204 "" (some "unexpected EOF") id)
    "u" "a" "b" emptyWorld 204 "" (some "unexpected EOF") rfl (by decide)
  exact ⟨(h1.1 rfl).trans (congrArg Except.error (by decide)),
    (h2.2 "unexpected EOF" rfl).trans (congrArg Except.error (by decide))⟩

/-- C9: with at least one positional argument and a password `p`, the one
request `LoginCmd` issues is a POST with content type `application/json` to
the host argument followed by `/api/v1/web/whisk-system/nuv/login`, whose JSON
object has exactly the members `login` and `password`: `password` is `p`,
`login` is the second positional argument if there is one and `nuvolaris`
otherwise. -/
theorem LoginCmd_request (env : Env) (w : World) (host : String) (rest : List String)
    (p : String)
    (hhelp : env.helpFlag = false) (hargs : env.args = host :: rest)
    (hpwd : env.askPassword = Except.ok p) :
    (LoginCmd env w).2.requests =
      w.requests ++
        [⟨"POST", host ++ "/api/v1/web/whisk-system/nuv/login", "application/json",
          [("login", rest.headD "nuvolaris"), ("password", p)]⟩] := by
  rw [LoginCmd_eq env w host rest p hhelp hargs hpwd, afterLogin_frame, doLogin_requests]
  rfl

/-- Witness of C9: only a host argument (default user), and a host with the
user `a user`. -/
theorem LoginCmd_request_witness :
    (LoginCmd testEnv emptyWorld).2.requests =
        [⟨"POST", "http://127.0.0.1:8080/api/v1/web/whisk-system/nuv/login",
          "application/json", [("login", "nuvolaris"), ("password", "a password")]⟩] ∧
      (LoginCmd (mkEnv ["h", "a user"] (Except.ok "a password") 500 "" none id)
          emptyWorld).2.requests =
        [⟨"POST", "h/api/v1/web/whisk-system/nuv/login",
          "application/json", [("login", "a user"), ("password", "a password")]⟩] :=
  ⟨LoginCmd_request testEnv emptyWorld "http://127.0.0.1:8080" [] "a password" rfl rfl rfl,
    LoginCmd_request (mkEnv ["h", "a user"] (Except.ok "a password") 500 "" none id)
      emptyWorld "h" ["a user"] "a password" rfl rfl rfl⟩


/-! ## The success path -/

theorem jsonDecode_fakeCred : jsonDecode fakeCredBody none = some [("fakeCred", "test")] := by
  decide

/-- What `LoginCmd` does once `doLogin` has returned credentials and no write
faults. -/
theorem afterLogin_no_fault (env : Env) (user host : String) (creds : Creds) (w4 : World)
    (hkeys : (creds.map Prod.fst).Nodup)
    (hperm : (env.rangeOrder creds).Perm creds)
    (hset : ∀ e s k v, env.setFault e s k v = none) :
    afterLogin env user host (Except.ok creds, w4) =
      (match keyringGet env nuvSecretServiceName "AUTH"
          { w4 with entries := override w4.entries creds,
                    setLog := w4.setLog ++ writesOf (env.rangeOrder creds) } with
        | Except.error err => (none, some err)
        | Except.ok auth => (some ⟨user, auth, host⟩, none),
       { w4 with entries := override w4.entries creds,
                 setLog := w4.setLog ++ writesOf (env.rangeOrder creds) }) := by
  simp only [afterLogin, storeCredentials_no_fault env creds w4 hkeys hperm hset]
  split <;> rfl

/-- C1 (as the code behaves): with a host argument, a password, an endpoint
answering 200 with `{"fakeCred": "test"}` and a fault-free keyring, `LoginCmd`
leaves `fakeCred ↦ test` under `nuvolaris`, but it returns a non-nil result
only if the keyring already held an `AUTH` entry; on a keyring without `AUTH`
(such as the empty one) it returns a nil result and the error
`secret not found in keyring`. -/
theorem LoginCmd_fakeCred (env : Env) (w : World) (host : String) (rest : List String)
    (p : String)
    (hhelp : env.helpFlag = false) (hargs : env.args = host :: rest)
    (hpwd : env.askPassword = Except.ok p)
    (hpost : ∀ req, env.httpPost req = Except.ok ⟨200, fakeCredBody, none⟩)
    (hset : ∀ e s k v, env.setFault e s k v = none)
    (hget : ∀ e s k, env.getFault e s k = none)
    (hperm : ∀ m, (env.rangeOrder m).Perm m) :
    (LoginCmd env w).2.entries "nuvolaris" "fakeCred" = some "test" ∧
      (w.entries "nuvolaris" "AUTH" = none →
        (LoginCmd env w).1 = (none, some "secret not found in keyring")) ∧
      (∀ a, w.entries "nuvolaris" "AUTH" = some a →
        (LoginCmd env w).1 = (some ⟨rest.headD "nuvolaris", a, host⟩, none)) := by
  have hd : doLogin env (host ++ whiskLoginPath) (rest.headD defaultUser) p (prompted w) =
      (Except.ok [("fakeCred", "test")],
        (doLogin env (host ++ whiskLoginPath) (rest.headD defaultUser) p (prompted w)).2) := by
    apply Prod.ext
    · rw [doLogin_fst, hpost]
      simp only [ne_eq, not_true_eq_false, if_false, jsonDecode_fakeCred]
    · rfl
  rw [LoginCmd_eq env w host rest p hhelp hargs hpwd, hd,
    afterLogin_no_fault env _ _ _ _ (by decide) (hperm _) hset, doLogin_requests]
  have hauth : override w.entries [("fakeCred", "test")] nuvSecretServiceName "AUTH"
      = w.entries "nuvolaris" "AUTH" := by
    simp [override, mapGet, nuvSecretServiceName]
  refine ⟨?_, ?_, ?_⟩
  · simp [override, mapGet, nuvSecretServiceName, prompted, println, print]
  · intro h
    simp only [keyringGet, hget, prompted, println, print, hauth, h]
    rfl
  · intro a h
    simp only [keyringGet, hget, prompted, println, print, hauth, h]
    rfl

/-- Witness of C1: the first success test of `TestLoginCmd` on the empty
keyring of `keyring.MockInit`, and the same run on a keyring holding `AUTH`. -/
theorem LoginCmd_fakeCred_witness :
    (LoginCmd testEnv emptyWorld).1 = (none, some "secret not found in keyring") ∧
      (LoginCmd testEnv emptyWorld).2.entries "nuvolaris" "fakeCred" = some "test" ∧
      (LoginCmd testEnv authWorld).1
        = (some ⟨"nuvolaris", "old", "http://127.0.0.1:8080"⟩, none) := by
  have h := LoginCmd_fakeCred testEnv emptyWorld "http://127.0.0.1:8080" [] "a password"
    rfl rfl rfl (fun _ => rfl) (fun _ _ _ _ => rfl) (fun _ _ _ => rfl)
    (fun _ => List.Perm.refl _)
  have h2 := LoginCmd_fakeCred testEnv authWorld "http://127.0.0.1:8080" [] "a password"
    rfl rfl rfl (fun _ => rfl) (fun _ _ _ _ => rfl) (fun _ _ _ => rfl)
    (fun _ => List.Perm.refl _)
  exact ⟨h.2.1 rfl, h.1, h2.2.2 "old" rfl⟩


theorem keyringGet_ok (env : Env) (s u v : String) (w : World)
    (h : keyringGet env s u w = Except.ok v) : w.entries s u = some v := by
  simp only [keyringGet] at h
  split at h
  · cases h
  · split at h
    · rename_i hv
      cases h
      exact hv
    · cases h

/-- C4: whenever `LoginCmd` returns a non-nil result, the error is nil,
`ApiHost` is the first positional argument, `Login` is the second one if
present and `nuvolaris` otherwise, and `Auth` is the keyring entry
(`nuvolaris`, `AUTH`) as it stands after the pairs of the response were
written: the `AUTH` value of the response if it has one, the entry the
keyring held before otherwise. If the read-back of `AUTH` fails, `LoginCmd`
returns a nil result and that read error. -/
theorem LoginCmd_result (env : Env) (w : World)
    (hperm : ∀ m, (env.rangeOrder m).Perm m) :
    (∀ r err w5, LoginCmd env w = ((some r, err), w5) →
        err = none ∧
        ∃ host rest pwd creds,
          env.args = host :: rest ∧ env.askPassword = Except.ok pwd ∧
          (doLogin env (host ++ whiskLoginPath) (rest.headD defaultUser) pwd (prompted w)).1
            = Except.ok creds ∧
          r.ApiHost = host ∧ r.Login = rest.headD "nuvolaris" ∧
          w5.entries = override w.entries creds ∧
          w5.entries "nuvolaris" "AUTH" = some r.Auth ∧
          keyringGet env "nuvolaris" "AUTH" w5 = Except.ok r.Auth ∧
          (mapGet creds "AUTH" = some r.Auth ∨
            (mapGet creds "AUTH" = none ∧ w.entries "nuvolaris" "AUTH" = some r.Auth))) ∧
      (∀ host rest pwd creds w4 w5 e,
        env.helpFlag = false → env.args = host :: rest → env.askPassword = Except.ok pwd →
        doLogin env (host ++ whiskLoginPath) (rest.headD defaultUser) pwd (prompted w)
          = (Except.ok creds, w4) →
        storeCredentials env creds w4 = (none, w5) →
        keyringGet env nuvSecretServiceName "AUTH" w5 = Except.error e →
        LoginCmd env w = ((none, some e), w5)) := by
  constructor
  · intro r err w5 h
    cases hhelp : env.helpFlag with
    | true => simp [LoginCmd, hhelp] at h
    | false =>
      cases hargs : env.args with
      | nil => simp [LoginCmd, hhelp, hargs] at h
      | cons host rest =>
        cases hpwd : env.askPassword with
        | error e => simp [LoginCmd, hhelp, hargs, hpwd] at h
        | ok pwd =>
          rw [LoginCmd_eq env w host rest pwd hhelp hargs hpwd] at h
          cases hd : doLogin env (host ++ whiskLoginPath) (rest.headD defaultUser) pwd
              (prompted w) with
          | mk x w4 =>
            rw [hd] at h
            cases x with
            | error e => simp [afterLogin] at h
            | ok creds =>
              have hnd : (creds.map Prod.fst).Nodup :=
                doLogin_ok_nodup env _ _ _ _ creds (by rw [hd])
              have hw4 : w4.entries = w.entries := by
                have := doLogin_requests env (host ++ whiskLoginPath)
                  (rest.headD defaultUser) pwd (prompted w)
                rw [hd] at this
                simp only at this
                rw [this]
                rfl
              simp only [afterLogin] at h
              cases hs : storeCredentials env creds w4 with
              | mk sr w5a =>
                rw [hs] at h
                cases sr with
                | some e => simp at h
                | none =>
                  simp only at h
                  have hent := storeCredentials_ok env creds w4 w5a hnd (hperm creds) hs
                  rw [hw4] at hent
                  cases hg : keyringGet env nuvSecretServiceName "AUTH" w5a with
                  | error e =>
                    rw [hg] at h
                    simp at h
                  | ok auth =>
                    rw [hg] at h
                    simp only [Prod.mk.injEq, Option.some.injEq] at h
                    obtain ⟨⟨hr, herr⟩, hw⟩ := h
                    subst hw
                    subst hr
                    have hsome := keyringGet_ok env _ _ _ _ hg
                    refine ⟨herr.symm, host, rest, pwd, creds, rfl, rfl, by rw [hd], rfl, rfl,
                      hent, hsome, hg, ?_⟩
                    rw [hent] at hsome
                    simp only [override, nuvSecretServiceName, if_true] at hsome
                    cases hm : mapGet creds "AUTH" with
                    | some v =>
                      rw [hm] at hsome
                      exact Or.inl hsome
                    | none =>
                      rw [hm] at hsome
                      exact Or.inr ⟨rfl, hsome⟩
  · intro host rest pwd creds w4 w5 e hhelp hargs hpwd hd hs hg
    rw [LoginCmd_eq env w host rest pwd hhelp hargs hpwd, hd]
    simp only [afterLogin, hs, hg]

/-- Witness of C4: a response with `AUTH` on a keyring that held another
`AUTH` value, and the same run with a keyring whose read of `AUTH` faults. -/
theorem LoginCmd_result_witness :
    (LoginCmd authEnv authWorld).1 = (some ⟨"u", "tok", "h"⟩, none) ∧
      (LoginCmd authEnv authWorld).2.entries "nuvolaris" "AUTH" = some "tok" ∧
      (LoginCmd lockedEnv authWorld).1 = (none, some "keyring locked") := by
  have h1 := (LoginCmd_result authEnv authWorld (fun _ => List.Perm.refl _)).1
    ⟨"u", "tok", "h"⟩ none (LoginCmd authEnv authWorld).2 (Prod.ext (by decide) rfl)
  have h2 := (LoginCmd_result lockedEnv authWorld (fun _ => List.Perm.refl _)).2
    "h" ["u"] "pw" [("AUTH", "tok")]
    (doLogin lockedEnv ("h" ++ whiskLoginPath) "u" "pw" (prompted authWorld)).2
    (storeCredentials lockedEnv [("AUTH", "tok")]
      (doLogin lockedEnv ("h" ++ whiskLoginPath) "u" "pw" (prompted authWorld)).2).2
    "keyring locked" rfl rfl rfl (Prod.ext (by decide) rfl) (Prod.ext (by decide) rfl)
    (by decide)
  obtain ⟨_, _, _, _, _, _, _, _, _, _, _, hauth, _, _⟩ := h1
  exact ⟨by decide, hauth, by rw [h2]⟩

/-! ## Idempotence -/

theorem keyringGet_congr (env : Env) (s u : String) (w1 w2 : World)
    (h : w1.entries = w2.entries) : keyringGet env s u w1 = keyringGet env s u w2 := by
  simp only [keyringGet, h]

theorem doLogin_fst_indep (env : Env) (url user p : String) (w1 w2 : World) :
    (doLogin env url user p w1).1 = (doLogin env url user p w2).1 := by
  rw [doLogin_fst, doLogin_fst]

/-- A second invocation of `LoginCmd` on the world left by a first one, with
a fault-free keyring. -/
theorem LoginCmd_twice (env : Env) (order2 : Creds → Creds) (w : World)
    (hperm : ∀ m, (env.rangeOrder m).Perm m)
    (hperm2 : ∀ m, (order2 m).Perm m)
    (hset : ∀ e s k v, env.setFault e s k v = none) :
    (LoginCmd (withOrder env order2) (LoginCmd env w).2).1 = (LoginCmd env w).1 ∧
      (LoginCmd (withOrder env order2) (LoginCmd env w).2).2.entries
        = (LoginCmd env w).2.entries := by
  cases hhelp : env.helpFlag with
  | true => simp [LoginCmd, hhelp, withOrder, println]
  | false =>
    cases hargs : env.args with
    | nil => simp [LoginCmd, hhelp, hargs, withOrder, println]
    | cons host rest =>
      cases hpwd : env.askPassword with
      | error e => simp [LoginCmd, hhelp, hargs, hpwd, withOrder, print]
      | ok p =>
        have e1 := LoginCmd_eq env w host rest p hhelp hargs hpwd
        have e2 := LoginCmd_eq (withOrder env order2) (LoginCmd env w).2 host rest p
          hhelp hargs hpwd
        have hd2 : ∀ w1 : World,
            doLogin (withOrder env order2) (host ++ whiskLoginPath) (rest.headD defaultUser) p w1
              = ((doLogin env (host ++ whiskLoginPath) (rest.headD defaultUser) p (prompted w)).1,
                 { w1 with requests := w1.requests ++
                    [⟨"POST", host ++ whiskLoginPath, "application/json",
                      [("login", rest.headD defaultUser), ("password", p)]⟩] }) := by
          intro w1
          apply Prod.ext
          · exact doLogin_fst_indep env _ _ _ w1 (prompted w)
          · exact doLogin_requests env _ _ _ w1
        have hd1 := hd2 (prompted w)
        change doLogin env _ _ _ _ = _ at hd1
        rw [hd2] at e2
        rw [hd1] at e1
        cases hd : (doLogin env (host ++ whiskLoginPath) (rest.headD defaultUser) p
            (prompted w)).1 with
        | error e =>
          rw [hd] at e1 e2
          simp only [afterLogin] at e1 e2
          rw [e2, e1]
          exact ⟨rfl, rfl⟩
        | ok creds =>
          have hnd : (creds.map Prod.fst).Nodup := doLogin_ok_nodup env _ _ _ _ creds hd
          rw [hd] at e1 e2
          rw [afterLogin_no_fault env _ _ creds _ hnd (hperm creds) hset] at e1
          rw [afterLogin_no_fault (withOrder env order2) _ _ creds _ hnd (hperm2 creds) hset]
            at e2
          rw [e2, e1]
          simp only [prompted, println, print, override_idem]
          refine ⟨?_, trivial⟩
          congr 1

/-- C10: with a fault-free keyring, running `storeCredentials creds` a second
time (in any iteration order) reports no error and leaves the keyring as the
first run left it; and invoking `LoginCmd` a second time with the same
arguments, password and endpoint returns the same result and error as the
first invocation and leaves the same keyring entries. -/
theorem login_idempotent (env : Env) (order2 : Creds → Creds) (creds : Creds) (w : World)
    (hkeys : (creds.map Prod.fst).Nodup)
    (hperm : ∀ m, (env.rangeOrder m).Perm m)
    (hperm2 : ∀ m, (order2 m).Perm m)
    (hset : ∀ e s k v, env.setFault e s k v = none) :
    (storeCredentials (withOrder env order2) creds (storeCredentials env creds w).2).1 = none ∧
      (storeCredentials (withOrder env order2) creds (storeCredentials env creds w).2).2.entries
        = (storeCredentials env creds w).2.entries ∧
      (LoginCmd (withOrder env order2) (LoginCmd env w).2).1 = (LoginCmd env w).1 ∧
      (LoginCmd (withOrder env order2) (LoginCmd env w).2).2.entries
        = (LoginCmd env w).2.entries := by
  have hs1 := storeCredentials_no_fault env creds w hkeys (hperm creds) hset
  have hs2 := storeCredentials_no_fault (withOrder env order2) creds
    (storeCredentials env creds w).2 hkeys (hperm2 creds) hset
  refine ⟨by rw [hs2], ?_, LoginCmd_twice env order2 w hperm hperm2 hset⟩
  rw [hs2, hs1]
  simp only [override_idem]

/-- Witness of C10: the map of `Test_storeCredentials` written twice, and the
login against an endpoint answering `{"AUTH": "tok"}` run twice, the second
time visiting maps in reverse order. -/
theorem login_idempotent_witness :
    (storeCredentials (withOrder authEnv List.reverse) fakeCreds
        (storeCredentials authEnv fakeCreds emptyWorld).2).2.entries
        = (storeCredentials authEnv fakeCreds emptyWorld).2.entries ∧
      (LoginCmd (withOrder authEnv List.reverse) (LoginCmd authEnv emptyWorld).2).1
        = (some ⟨"u", "tok", "h"⟩, none) ∧
      (LoginCmd (withOrder authEnv List.reverse) (LoginCmd authEnv emptyWorld).2).2.entries
        = (LoginCmd authEnv emptyWorld).2.entries := by
  have h := login_idempotent authEnv List.reverse fakeCreds emptyWorld (by decide)
    (fun _ => List.Perm.refl _) (fun _ => List.reverse_perm _) (fun _ _ _ _ => rfl)
  exact ⟨h.2.1, h.2.2.1.trans (by decide), h.2.2.2⟩


/-! ## Decode failures -/

theorem unmarshalMembers_of_not_shaped (ms : List (String × JSON)) (m : Creds)
    (h : mapShaped (JSON.obj ms) = false) : unmarshalMembers ms m = none := by
  induction ms generalizing m with
  | nil => simp [mapShaped] at h
  | cons q ms ih =>
    obtain ⟨k, j⟩ := q
    cases j with
    | null =>
      simp only [unmarshalMembers]
      apply ih
      simpa [mapShaped] using h
    | str s =>
      simp only [unmarshalMembers]
      apply ih
      simpa [mapShaped] using h
    | bool b => rfl
    | num raw => rfl
    | arr xs => rfl
    | obj o => rfl

theorem unmarshalMap_of_not_shaped (v : JSON) (h : mapShaped v = false) :
    unmarshalMap v = none := by
  cases v with
  | null => simp [mapShaped] at h
  | obj ms => exact unmarshalMembers_of_not_shaped ms [] h
  | bool b => rfl
  | num raw => rfl
  | arr xs => rfl
  | str s => rfl

/-- A body stream that ends with a failing read: an object whose closing
brace was read is decoded all the same, also when text after it was read; a
`null` is decoded only when a character after it was read; a value cut short
is an error. -/
theorem jsonDecode_failing_read :
    jsonDecode authBody (some "connection reset") = some [("AUTH", "tok")] ∧
      jsonDecode trailingBody (some "connection reset") = some [("a", "b")] ∧
      jsonDecode "null" (some "connection reset") = none ∧
      jsonDecode "null " (some "connection reset") = some [] ∧
      jsonDecode "\x7b\"AUTH\": \"to" (some "connection reset") = none := by
  refine ⟨?_, ?_, ?_, ?_, ?_⟩ <;> decide

/-- C8 (amended): for a status-200 response whose body does not begin with a
complete JSON value, or begins with a JSON value that is neither `null` nor
an object whose member values are all strings or `null`, `doLogin` returns no
credentials and the error `failed to decode response from login request`;
`LoginCmd` then returns a nil result with that error, having issued the
request and written nothing to the keyring. -/
theorem doLogin_decode_error (env : Env) (url user password : String) (w : World)
    (resp : Response)
    (hpost : env.httpPost ⟨"POST", url, "application/json",
      [("login", user), ("password", password)]⟩ = Except.ok resp)
    (hstatus : resp.StatusCode = 200)
    (hbad : (∀ n, parseValue n 0 resp.Body.toList = none) ∨
      ∃ n v rest, parseValue n 0 resp.Body.toList = some (v, rest) ∧ mapShaped v = false) :
    (doLogin env url user password w).1
        = Except.error "failed to decode response from login request" ∧
      (∀ host rest, env.helpFlag = false → env.args = host :: rest →
        env.askPassword = Except.ok password →
        url = host ++ whiskLoginPath → user = rest.headD defaultUser →
        LoginCmd env w =
          ((none, some "failed to decode response from login request"),
            { prompted w with requests := w.requests ++
                [⟨"POST", url, "application/json",
                  [("login", user), ("password", password)]⟩] })) := by
  have hdec : jsonDecode resp.Body resp.BodyErr = none := by
    rcases hbad with hp | ⟨n, v, rest, hp, hv⟩
    · simp only [jsonDecode, hp]
    · simp only [jsonDecode, jsonDecode_fuel resp.Body n v rest hp,
        unmarshalMap_of_not_shaped v hv]
      cases resp.BodyErr with
      | none => rfl
      | some e => simp
  have h1 : (doLogin env url user password w).1 = Except.error errDecode := by
    simp only [doLogin_fst, hpost, hstatus, ne_eq, not_true_eq_false, if_false, hdec]
  refine ⟨h1, ?_⟩
  intro host rest hhelp hargs hpwd hurl huser
  subst hurl
  subst huser
  have h2 : (doLogin env (host ++ whiskLoginPath) (rest.headD defaultUser) password
      (prompted w)).1 = Except.error errDecode :=
    (doLogin_fst_indep env _ _ _ _ w).trans h1
  have h3 : doLogin env (host ++ whiskLoginPath) (rest.headD defaultUser) password (prompted w)
      = (Except.error errDecode,
          { prompted w with requests := (prompted w).requests ++
              [⟨"POST", host ++ whiskLoginPath, "application/json",
                [("login", rest.headD defaultUser), ("password", password)]⟩] }) :=
    Prod.ext h2 (doLogin_requests env _ _ _ _)
  rw [LoginCmd_eq env w host rest password hhelp hargs hpwd, h3]
  rfl

/-- Witness of C8 (amended): the last test of `TestLoginCmd`, whose endpoint
answers `invalid json`. -/
theorem doLogin_decode_error_witness :
    (doLogin invalidEnv "h/api/v1/web/whisk-system/nuv/login" "a user" "a password"
        emptyWorld).1 = Except.error "failed to decode response from login request" ∧
      (LoginCmd invalidEnv emptyWorld).1
        = (none, some "failed to decode response from login request") ∧
      (LoginCmd invalidEnv emptyWorld).2.setLog = [] := by
  have h := doLogin_decode_error invalidEnv "h/api/v1/web/whisk-system/nuv/login" "a user"
    "a password" emptyWorld ⟨200, "invalid json", none⟩ rfl rfl
    (Or.inl (fun n => by cases n <;> rfl))
  have h2 := h.2 "h" ["a user"] rfl rfl rfl (by decide) rfl
  exact ⟨h.1, by rw [h2], by rw [h2]; rfl⟩

/-- C8 (counterexample): three status-200 bodies the claim says are rejected
and the decoder accepts. `{"AUTH": null}` is valid JSON and not an object with
string values only, yet `doLogin` returns the map `AUTH ↦ ""` and `LoginCmd`
writes it to the keyring and returns a non-nil result; `null` is valid JSON
and not an object, yet decodes to the empty map; `{"a":"b"} x` is not valid
JSON, yet decodes to `a ↦ b`. -/
theorem doLogin_accepts_null_member :
    (validJSON nullAuthBody).map isFlatStringObject = some false ∧
      (doLogin nullEnv "h/api/v1/web/whisk-system/nuv/login" "u" "pw" emptyWorld).1
        = Except.ok [("AUTH", "")] ∧
      (LoginCmd nullEnv emptyWorld).1 = (some ⟨"u", "", "h"⟩, none) ∧
      (LoginCmd nullEnv emptyWorld).2.setLog = [("nuvolaris", "AUTH", "")] ∧
      (validJSON "null").map isFlatStringObject = some false ∧
      jsonDecode "null" none = some [] ∧
      (validJSON trailingBody).isNone = true ∧
      jsonDecode trailingBody none = some [("a", "b")] := by
  refine ⟨?_, ?_, ?_, ?_, ?_, ?_, ?_, ?_⟩ <;> decide

end Nuv
